import Mathlib

/-!
Shallow embedding of the xiaohongshu-mcp automation flows.

Go strings are byte sequences, so a string is a list of bytes (`Fin 256`).
Browser interaction is recorded as a trace of `Action`s; the answers of the
page (which elements exist, which calls fail) come from an environment record.
-/

set_option linter.deprecated false
set_option linter.unusedVariables false

namespace Xhs

/-! ## Go strings -/

/-- A Go `string`: an immutable sequence of bytes. -/
abbrev GoString := List (Fin 256)

/-- UTF-8 encoding of one rune (`utf8.AppendRune`): a surrogate or a value above
`0x10FFFF` is encoded as the replacement rune `0xFFFD`. -/
def utf8EncodeRune (r : Nat) : GoString :=
  if r < 0x80 then [Fin.ofNat r]
  else if r < 0x800 then [Fin.ofNat (0xC0 + r / 64), Fin.ofNat (0x80 + r % 64)]
  else if (0xD800 ≤ r ∧ r ≤ 0xDFFF) ∨ 0x10FFFF < r then [0xEF, 0xBF, 0xBD]
  else if r < 0x10000 then
    [Fin.ofNat (0xE0 + r / 4096), Fin.ofNat (0x80 + r / 64 % 64), Fin.ofNat (0x80 + r % 64)]
  else
    [Fin.ofNat (0xF0 + r / 262144), Fin.ofNat (0x80 + r / 4096 % 64),
     Fin.ofNat (0x80 + r / 64 % 64), Fin.ofNat (0x80 + r % 64)]

/-- A Go string literal: the UTF-8 bytes of the source text. -/
def goStr (s : String) : GoString := s.toList.flatMap (fun c => utf8EncodeRune c.toNat)

/-- The replacement rune `utf8.RuneError`. -/
def RuneError : Nat := 0xFFFD

/-- A UTF-8 continuation byte lies in `lo..hi`. -/
def inRange (b lo hi : Nat) : Bool := decide (lo ≤ b) && decide (b ≤ hi)

/-- The rune at the front of a string and the number of bytes it takes
(`utf8.DecodeRuneInString`): an invalid or truncated sequence is `RuneError` of width 1. -/
def decodeRune : GoString → Nat × Nat
  | [] => (RuneError, 0)
  | b0 :: rest =>
    if b0.val < 0x80 then (b0.val, 1)
    else if b0.val < 0xC2 then (RuneError, 1)
    else if b0.val < 0xE0 then
      match rest with
      | b1 :: _ =>
        if inRange b1.val 0x80 0xBF then ((b0.val % 32) * 64 + b1.val % 64, 2)
        else (RuneError, 1)
      | _ => (RuneError, 1)
    else if b0.val < 0xF0 then
      match rest with
      | b1 :: b2 :: _ =>
        if inRange b1.val (if b0.val = 0xE0 then 0xA0 else 0x80)
              (if b0.val = 0xED then 0x9F else 0xBF) && inRange b2.val 0x80 0xBF then
          ((b0.val % 16) * 4096 + (b1.val % 64) * 64 + b2.val % 64, 3)
        else (RuneError, 1)
      | _ => (RuneError, 1)
    else if b0.val < 0xF5 then
      match rest with
      | b1 :: b2 :: b3 :: _ =>
        if inRange b1.val (if b0.val = 0xF0 then 0x90 else 0x80)
              (if b0.val = 0xF4 then 0x8F else 0xBF) && inRange b2.val 0x80 0xBF
            && inRange b3.val 0x80 0xBF then
          ((b0.val % 8) * 262144 + (b1.val % 64) * 4096 + (b2.val % 64) * 64 + b3.val % 64, 4)
        else (RuneError, 1)
      | _ => (RuneError, 1)
    else (RuneError, 1)

/-- The loop `for _, r := range s`, with the string length as fuel (every step
consumes at least one byte). -/
def runesAux : Nat → GoString → List Nat
  | 0, _ => []
  | _, [] => []
  | fuel + 1, b :: rest =>
    let d := decodeRune (b :: rest)
    d.1 :: runesAux fuel ((b :: rest).drop d.2)

/-- The runes of a string, as `for _, r := range s` yields them. -/
def runes (s : GoString) : List Nat := runesAux s.length s

/-- Go's `<` on strings: byte-wise lexical order, a proper prefix being smaller. -/
def strLess : GoString → GoString → Bool
  | [], [] => false
  | [], _ :: _ => true
  | _ :: _, [] => false
  | a :: s, b :: t => if a.val < b.val then true else if b.val < a.val then false else strLess s t

/-- The function `strings.TrimLeft(s, cutset)` for a cutset of ASCII bytes
(the `trimLeftByte` and `trimLeftASCII` paths): leading bytes in the cutset are dropped. -/
def TrimLeft (s cutset : GoString) : GoString :=
  s.dropWhile (fun b => cutset.contains b)

/-- The function `strings.TrimSuffix`. -/
def TrimSuffix (s suffix : GoString) : GoString :=
  if suffix.isSuffixOf s then s.take (s.length - suffix.length) else s

/-- The function `errors.Wrap(err, msg)` of pkg/errors on a non-nil error: the message
becomes `msg: err`. -/
def wrapMsg (err msg : GoString) : GoString := msg ++ goStr ": " ++ err

/-- The function `errors.Wrap`: a nil error stays nil. -/
def Wrap (err : Option GoString) (msg : GoString) : Option GoString :=
  match err with
  | none => none
  | some e => some (wrapMsg e msg)

deriving instance DecidableEq for Except

/-! ## Browser traces -/

/-- One observable step of a browser-driven flow. -/
inductive Action
  | launchBrowser
  | newPage
  | closePage
  | closeBrowser
  | processImages (images : List GoString)
  | navigate (url : GoString)
  | waitLoad
  | waitStable
  | wait (predicate : GoString)
  | eval (script : GoString)
  | waitElement (selector : GoString)
  | waitVisible (selector : GoString)
  | sleep (ms : Nat)
  | elements (selector : GoString)
  | has (selector : GoString)
  | text (selector : GoString)
  | click (selector : GoString)
  | setFiles (selector : GoString) (paths : List GoString)
  | input (selector : GoString) (text : GoString)
  | key (name : GoString)
  | mkdirAll (path : GoString)
  | feedDetail (feedID : GoString) (xsecToken : GoString)
  | writeFile (path : GoString) (content : GoString)
  deriving DecidableEq

/-- How a flow stops early: a returned Go error, or a panic of a rod `Must*` call. -/
inductive Fail
  | error (msg : GoString)
  | panic (what : GoString)
  deriving DecidableEq

/-- A run of a flow: the actions performed, in order, and the outcome. -/
structure Run (α : Type) where
  trace : List Action
  out : Except Fail α

/-- Sequencing: the second part runs only when the first part succeeded. -/
def Run.bind {α β : Type} (x : Run α) (f : α → Run β) : Run β :=
  match x.out with
  | .error e => ⟨x.trace, .error e⟩
  | .ok a => ⟨x.trace ++ (f a).trace, (f a).out⟩

instance : Monad Run where
  pure a := ⟨[], .ok a⟩
  bind := Run.bind

/-- Perform actions that cannot fail. -/
def acts (as : List Action) : Run Unit := ⟨as, .ok ()⟩

/-- A rod `Must*` call: the action is attempted and panics when the page refuses it. -/
def must (a : Action) (ok : Bool) : Run Unit :=
  ⟨[a], if ok then .ok () else .error (.panic (goStr "rod"))⟩

/-- Return a Go error. -/
def fail {α : Type} (msg : GoString) : Run α := ⟨[], .error (.error msg)⟩

/-- A deferred call: the cleanup runs on every exit path of the body. -/
def Run.defer {α : Type} (body : Run α) (cleanup : Action) : Run α :=
  ⟨body.trace ++ [cleanup], body.out⟩

/-- Go's `errors.Wrap(err, msg)` on the error returned by a run. -/
def Run.wrap {α : Type} (x : Run α) (msg : GoString) : Run α :=
  match x.out with
  | .error (.error e) => ⟨x.trace, .error (.error (wrapMsg e msg))⟩
  | _ => x

/-! ## Publishing (service.go, xiaohongshu/publish.go) -/

/-- The type `PublishRequest` of service.go. -/
structure PublishRequest where
  Title : GoString
  Content : GoString
  Images : List GoString
  Tags : List GoString

/-- The type `PublishResponse` of service.go. -/
structure PublishResponse where
  Title : GoString
  Content : GoString
  Images : Nat
  Status : GoString
  PostID : GoString
  deriving DecidableEq

/-- The type `PublishImageContent` of publish.go. -/
structure PublishImageContent where
  Title : GoString
  Content : GoString
  Tags : List GoString
  ImagePaths : List GoString

/-- A `div.creator-tab` element: its text (none when `Text()` fails) and whether a click works. -/
structure Tab where
  text : Option GoString
  clickOk : Bool

/-- What the page shows after a tag was typed: no topic dropdown, a dropdown without an
item, or a dropdown with a first item. -/
inductive TopicState
  | noContainer
  | noItem
  | item

/-- The outcome of the `Race` in `getContentElement`: the race times out (`MustDo` panics),
returns without a handler having run, or a handler received the element of a selector. -/
inductive RaceOutcome
  | timeout
  | notFound
  | found (selector : GoString)

/-- The answers of the creator page to the publish flow. -/
structure PublishPage where
  navigateOk : Bool
  uploadContentVisible : Bool
  tabs : List Tab
  uploadInputOk : Bool
  titleInputOk : Bool
  contentElement : RaceOutcome
  topic : GoString → TopicState
  submitOk : Bool

/-- The collaborators of `PublishContent` outside this repository's sources: the wide-rune
table of go-runewidth, the image processor of pkg/downloader, and the page. -/
structure PublishEnv where
  isWide : Nat → Bool
  processImages : List GoString → Except GoString (List GoString)
  page : PublishPage

/-- Modelled from the spec: `runewidth.StringWidth` of the go-runewidth dependency, whose
source is not part of the repository. Each rune of the title weighs 2 when it is wide
(CJK class) and 1 otherwise. -/
def StringWidth (isWide : Nat → Bool) (s : GoString) : Nat :=
  ((runes s).map (fun r => if isWide r then 2 else 1)).sum

/-- The constant `urlOfPublic`. -/
def urlOfPublic : GoString := goStr "https://creator.xiaohongshu.com/publish/publish?source=official"

/-- The tab loop of `NewPublishImageAction`: click the first tab whose text is the
image-upload label; a tab whose text or click fails is skipped. -/
def selectImageTab : List Tab → List Action
  | [] => []
  | t :: rest =>
    match t.text with
    | none => Action.text (goStr "div.creator-tab") :: selectImageTab rest
    | some txt =>
      if txt = goStr "上传图文" then
        if t.clickOk then
          [Action.text (goStr "div.creator-tab"), Action.click (goStr "div.creator-tab")]
        else
          Action.text (goStr "div.creator-tab") :: Action.click (goStr "div.creator-tab")
            :: selectImageTab rest
      else Action.text (goStr "div.creator-tab") :: selectImageTab rest

/-- The function `NewPublishImageAction`: open the creator page and select the image tab. -/
def NewPublishImageAction (page : PublishPage) : Run Unit := do
  must (Action.navigate urlOfPublic) page.navigateOk
  must (Action.waitVisible (goStr "div.upload-content")) page.uploadContentVisible
  acts [Action.sleep 1000]
  acts [Action.elements (goStr "div.creator-tab")]
  acts (selectImageTab page.tabs)
  acts [Action.sleep 1000]

/-- The function `uploadImages`. -/
def uploadImages (page : PublishPage) (imagesPaths : List GoString) : Run Unit := do
  must (Action.waitElement (goStr ".upload-input")) page.uploadInputOk
  acts [Action.setFiles (goStr ".upload-input") imagesPaths, Action.sleep 3000]

/-- The function `inputTag`: type `#`, the tag rune by rune, then take the first topic
suggestion or end the tag with a space. -/
def inputTag (page : PublishPage) (tag : GoString) : List Action :=
  [Action.input (goStr "content") (goStr "#"), Action.sleep 200]
  ++ (runes tag).flatMap (fun char =>
        [Action.input (goStr "content") (utf8EncodeRune char), Action.sleep 50])
  ++ [Action.sleep 1000]
  ++ (match page.topic tag with
      | .item => [Action.click (goStr "#creator-editor-topic-container .item"), Action.sleep 200]
      | _ => [Action.input (goStr "content") (goStr " ")])
  ++ [Action.sleep 500]

/-- The key presses of `inputTags` that come before the first tag. -/
def inputTagsPrelude : List Action :=
  [Action.sleep 1000]
  ++ (List.replicate 20 [Action.key (goStr "ArrowDown"), Action.sleep 10]).flatten
  ++ [Action.key (goStr "Enter"), Action.key (goStr "Enter"), Action.sleep 1000]

/-- The function `inputTags`. -/
def inputTags (page : PublishPage) (tags : List GoString) : List Action :=
  if tags.length = 0 then []
  else
    inputTagsPrelude
    ++ tags.flatMap (fun tag =>
        let tag := TrimLeft tag (goStr "#")
        inputTag page tag)

/-- The function `submitPublish`. -/
def submitPublish (page : PublishPage) (title content : GoString) (tags : List GoString) :
    Run Unit := do
  must (Action.waitElement (goStr "div.d-input input")) page.titleInputOk
  acts [Action.input (goStr "div.d-input input") title, Action.sleep 1000]
  match page.contentElement with
  | .timeout => must (Action.waitElement (goStr "div.ql-editor")) false
  | .notFound => fail (goStr "没有找到内容输入框")
  | .found _ =>
    acts [Action.input (goStr "content") content]
    acts (inputTags page tags)
  acts [Action.sleep 1000]
  must (Action.waitElement (goStr "div.submit div.d-button-content")) page.submitOk
  acts [Action.click (goStr "div.submit div.d-button-content"), Action.sleep 3000]

/-- The method `PublishAction.Publish`. -/
def Publish (page : PublishPage) (content : PublishImageContent) : Run Unit :=
  if content.ImagePaths.length = 0 then fail (goStr "图片不能为空")
  else do
    (uploadImages page content.ImagePaths).wrap (goStr "小红书上传图片失败")
    (submitPublish page content.Title content.Content content.Tags).wrap (goStr "小红书发布失败")

/-- The method `XiaohongshuService.publishContent`: a browser and a page are opened, both
closed by deferred calls, the action is constructed and run. -/
def publishContent (page : PublishPage) (content : PublishImageContent) : Run Unit :=
  Run.defer
    (Run.bind (acts [Action.launchBrowser]) (fun _ =>
      Run.defer
        (Run.bind (acts [Action.newPage]) (fun _ =>
          Run.bind (NewPublishImageAction page) (fun _ => Publish page content)))
        Action.closePage))
    Action.closeBrowser

/-- The method `XiaohongshuService.processImages`. -/
def processImages (env : PublishEnv) (images : List GoString) : Run (List GoString) :=
  ⟨[Action.processImages images],
    match env.processImages images with
    | .ok paths => .ok paths
    | .error e => .error (.error e)⟩

/-- The method `XiaohongshuService.PublishContent`. -/
def PublishContent (env : PublishEnv) (req : PublishRequest) : Run PublishResponse :=
  if StringWidth env.isWide req.Title > 40 then fail (goStr "标题长度超过限制")
  else do
    let imagePaths ← processImages env req.Images
    let content : PublishImageContent :=
      { Title := req.Title, Content := req.Content, Tags := req.Tags, ImagePaths := imagePaths }
    publishContent env.page content
    pure { Title := req.Title, Content := req.Content, Images := imagePaths.length,
           Status := goStr "发布完成", PostID := [] }

/-- A page on which every step of the publish flow works and no topic dropdown shows. -/
def cooperativePage : PublishPage :=
  { navigateOk := true, uploadContentVisible := true,
    tabs := [⟨some (goStr "上传视频"), true⟩, ⟨some (goStr "上传图文"), true⟩],
    uploadInputOk := true, titleInputOk := true,
    contentElement := .found (goStr "div.ql-editor"),
    topic := fun _ => .noContainer, submitOk := true }

/-- An environment for examples: the CJK unified ideographs are wide, images are local
paths used as they are. -/
def exampleEnv : PublishEnv :=
  { isWide := fun r => decide (0x4E00 ≤ r) && decide (r ≤ 0x9FFF),
    processImages := fun images => .ok images,
    page := cooperativePage }

/-! ## Login check (xiaohongshu/login.go) -/

/-- The answers of the explore page to the login check: whether navigation and load work,
and the pair `(exists, err)` returned by `pp.Has` for the post-login marker. -/
structure LoginPage where
  navigateOk : Bool
  loadOk : Bool
  hasExists : Bool
  hasErr : Option GoString

/-- The selector of the element shown only after login. -/
def loginMarker : GoString := goStr ".main-container .user .link-wrapper .channel"

/-- The method `LoginAction.CheckLoginStatus`; the result is the Go pair `(bool, error)`. -/
def CheckLoginStatus (page : LoginPage) : Run (Bool × Option GoString) := do
  must (Action.navigate (goStr "https://www.xiaohongshu.com/explore")) page.navigateOk
  must Action.waitLoad page.loadOk
  acts [Action.sleep 1000]
  acts [Action.has loginMarker]
  let exists_ := page.hasExists
  let err := page.hasErr
  if err ≠ none then
    pure (false, Wrap err (goStr "check login status failed"))
  else if !exists_ then
    pure (false, Wrap err (goStr "login status element not found"))
  else
    pure (true, none)

/-! ## Sorting (Go's `sort.Slice`) -/

/-- The inner loop of Go's `insertionSortLessFunc`: the new element moves left past every
element it is less than. The sorted prefix is held in reverse, nearest element first. -/
def sinkLeft {α : Type} (less : α → α → Bool) (x : α) : List α → List α
  | [] => [x]
  | y :: ys => if less x y then y :: sinkLeft less x ys else x :: y :: ys

/-- The function `sort.Slice(data, less)`, by the insertion sort that Go's pdqsort runs
on slices of at most 12 elements. On longer slices pdqsort may order elements that
compare equal differently. -/
def sortSlice {α : Type} (less : α → α → Bool) (data : List α) : List α :=
  (data.foldl (fun sortedRev x => sinkLeft less x sortedRev) []).reverse

/-! ## Search URL (xiaohongshu/search.go, net/url) -/

/-- The table `upperhex` of net/url at index `n`. -/
def upperhex (n : Nat) : Fin 256 := if n < 10 then Fin.ofNat (48 + n) else Fin.ofNat (55 + n)

/-- The function `ishex` of net/url. -/
def ishex (c : Fin 256) : Bool :=
  (decide (48 ≤ c.val) && decide (c.val ≤ 57)) || (decide (97 ≤ c.val) && decide (c.val ≤ 102))
    || (decide (65 ≤ c.val) && decide (c.val ≤ 70))

/-- The function `unhex` of net/url. -/
def unhex (c : Fin 256) : Nat :=
  if 48 ≤ c.val ∧ c.val ≤ 57 then c.val - 48
  else if 97 ≤ c.val ∧ c.val ≤ 102 then c.val - 97 + 10
  else if 65 ≤ c.val ∧ c.val ≤ 70 then c.val - 65 + 10
  else 0

/-- The function `shouldEscape(c, encodeQueryComponent)` of net/url: letters, digits and
`-`, `_`, `.`, `~` are kept, every other byte is escaped. -/
def shouldEscape (c : Fin 256) : Bool :=
  if (97 ≤ c.val ∧ c.val ≤ 122) ∨ (65 ≤ c.val ∧ c.val ≤ 90) ∨ (48 ≤ c.val ∧ c.val ≤ 57) then false
  else if c.val = 45 ∨ c.val = 95 ∨ c.val = 46 ∨ c.val = 126 then false
  else true

/-- The function `url.QueryEscape`: a space becomes `+`, an escaped byte becomes `%XX`. -/
def QueryEscape (s : GoString) : GoString :=
  s.flatMap (fun c =>
    if c.val = 32 then [43]
    else if shouldEscape c then [37, upperhex (c.val / 16), upperhex (c.val % 16)]
    else [c])

/-- The function `url.QueryUnescape`: `%XX` becomes a byte, `+` a space; a `%` that is not
followed by two hex digits is an error. -/
def QueryUnescape : GoString → Option GoString
  | [] => some []
  | c :: rest =>
    if c.val = 37 then
      match rest with
      | h1 :: h2 :: rest2 =>
        if ishex h1 && ishex h2 then
          (QueryUnescape rest2).map (fun t => Fin.ofNat (unhex h1 * 16 + unhex h2) :: t)
        else none
      | _ => none
    else if c.val = 43 then (QueryUnescape rest).map (fun t => 32 :: t)
    else (QueryUnescape rest).map (fun t => c :: t)

/-- The type `url.Values`, a map from key to values, as an association list with one
entry per key. -/
abbrev Values := List (GoString × List GoString)

/-- The method `Values.Set`: the key gets the single value, replacing what it had. -/
def Values.Set (v : Values) (key value : GoString) : Values :=
  if v.any (fun kv => kv.1 = key) then v.map (fun kv => if kv.1 = key then (key, [value]) else kv)
  else v ++ [(key, [value])]

/-- The method `Values.Encode`: keys in sorted order; every parameter `key=value` is
written after an `&` unless the buffer is still empty. -/
def Values.Encode (v : Values) : GoString :=
  (sortSlice (fun a b => strLess a.1 b.1) v).foldl
    (fun buf kv =>
      kv.2.foldl
        (fun buf value =>
          (if buf.length > 0 then buf ++ [38] else buf)
            ++ QueryEscape kv.1 ++ [61] ++ QueryEscape value)
        buf)
    []

/-- The function `makeSearchURL`. -/
def makeSearchURL (keyword : GoString) : GoString :=
  let values : Values := []
  let values := values.Set (goStr "keyword") keyword
  let values := values.Set (goStr "source") (goStr "web_explore_feed")
  goStr "https://www.xiaohongshu.com/search_result?" ++ values.Encode

/-! ## Injected state decoding (xiaohongshu/feeds.go, xiaohongshu/search.go) -/

/-- A parsed JSON document; a number is kept as its text. -/
inductive JSON
  | null
  | bool (b : Bool)
  | number (text : GoString)
  | string (s : GoString)
  | array (items : List JSON)
  | object (members : List (GoString × JSON))

/-- The display card of a feed; only the field used by service.go is kept. -/
structure NoteCard where
  DisplayTitle : GoString
  deriving DecidableEq

/-- A feed of a list view, with the fields that service.go reads. The type is declared
outside the given sources. -/
structure Feed where
  ID : GoString
  XsecToken : GoString
  NoteCard : NoteCard
  deriving DecidableEq

/-- The wrapper `FeedsValue` whose `Value` holds the feeds. The type is declared outside
the given sources. -/
structure FeedsValue where
  Value : List Feed
  deriving DecidableEq

/-- What `json.Unmarshal` needs from outside the given sources: the case-insensitive
match of a member name with a field name, and the decoding of a JSON value into a
`FeedsValue` (new value and the type error met, if any). -/
structure JsonEnv where
  equalFold : GoString → GoString → Bool
  decodeFeedsValue : FeedsValue → JSON → FeedsValue × Option GoString

/-- The message of a `json.UnmarshalTypeError`. -/
def unmarshalTypeError : GoString := goStr "json: cannot unmarshal value into Go struct"

/-- Decoding a JSON value into a Go struct with the single field `tag`, as
`encoding/json` does: `null` leaves the struct alone, an object decodes every member whose
name matches the field (exactly or case-insensitively) into it and skips the others, any
other value is a type error. The first type error is kept while decoding goes on. -/
def decodeStruct {β : Type} (env : JsonEnv) (tag : GoString)
    (dec : β → JSON → β × Option GoString) (cur : β) : JSON → β × Option GoString
  | .null => (cur, none)
  | .object members =>
    members.foldl
      (fun acc m =>
        if m.1 = tag || env.equalFold m.1 tag then
          let r := dec acc.1 m.2
          (r.1, acc.2 <|> r.2)
        else acc)
      (cur, none)
  | _ => (cur, some unmarshalTypeError)

/-- The call `json.Unmarshal([]byte(result), &searchResult)` for the type `SearchResult`
of search.go, followed by `return searchResult.Search.Feeds.Value, nil`. -/
def decodeSearchResult (env : JsonEnv) (doc : JSON) : Except GoString (List Feed) :=
  let r := decodeStruct env (goStr "search")
    (decodeStruct env (goStr "feeds") env.decodeFeedsValue) ⟨[]⟩ doc
  match r.2 with
  | some e => .error (wrapMsg e (goStr "failed to unmarshal __INITIAL_STATE__"))
  | none => .ok r.1.Value

/-- Modelled from the spec: the type `FeedResponse`, declared outside the given sources,
holds the feeds under the `feed` key as `SearchResult` holds them under `search` (feeds.go
reads `state.Feed.Feeds.Value`). This is `json.Unmarshal([]byte(result), &state)` followed
by `return state.Feed.Feeds.Value, nil`. -/
def decodeFeedResponse (env : JsonEnv) (doc : JSON) : Except GoString (List Feed) :=
  let r := decodeStruct env (goStr "feed")
    (decodeStruct env (goStr "feeds") env.decodeFeedsValue) ⟨[]⟩ doc
  match r.2 with
  | some e => .error (wrapMsg e (goStr "failed to unmarshal __INITIAL_STATE__"))
  | none => .ok r.1.Value

/-- The text that the page returns for `JSON.stringify(window.__INITIAL_STATE__)`: empty,
not parseable as JSON, or a JSON document. -/
inductive StateText
  | empty
  | malformed
  | json (doc : JSON)

/-- The steps of `GetFeedsList` and `Search` after the text of the state was read. -/
def decodeState (decode : JSON → Except GoString (List Feed)) : StateText → Run (List Feed)
  | .empty => fail (goStr "__INITIAL_STATE__ not found")
  | .malformed =>
    fail (wrapMsg (goStr "invalid character") (goStr "failed to unmarshal __INITIAL_STATE__"))
  | .json doc =>
    match decode doc with
    | .ok feeds => pure feeds
    | .error e => fail e

/-- The answers of a page to the state extraction. -/
structure StatePage where
  navigateOk : Bool
  stableOk : Bool
  waitOk : Bool
  evalOk : Bool
  state : StateText

/-- The function `NewFeedsListAction`. -/
def NewFeedsListAction (page : StatePage) : Run Unit := do
  must (Action.navigate (goStr "https://www.xiaohongshu.com")) page.navigateOk
  must Action.waitStable page.stableOk

/-- The method `FeedsListAction.GetFeedsList`. -/
def GetFeedsList (env : JsonEnv) (page : StatePage) : Run (List Feed) := do
  must (Action.wait (goStr "s && s.feed && s.feed.feeds")) page.waitOk
  must (Action.eval (goStr "JSON.stringify(window.__INITIAL_STATE__)")) page.evalOk
  decodeState (decodeFeedResponse env) page.state

/-- The method `SearchAction.Search`. -/
def Search (env : JsonEnv) (page : StatePage) (keyword : GoString) : Run (List Feed) := do
  must (Action.navigate (makeSearchURL keyword)) page.navigateOk
  must Action.waitStable page.stableOk
  must (Action.wait (goStr "window.__INITIAL_STATE__ !== undefined")) page.waitOk
  must (Action.eval (goStr "JSON.stringify(window.__INITIAL_STATE__)")) page.evalOk
  decodeState (decodeSearchResult env) page.state

/-- A JSON value that is neither `null` nor an object. -/
def JSON.isScalarOrArray : JSON → Bool
  | .null => false
  | .object _ => false
  | _ => true

/-- A member of a JSON object, looked up by its exact name. -/
def JSON.member (key : GoString) : JSON → Option JSON
  | .object members => (members.find? (fun m => m.1 = key)).map (fun m => m.2)
  | _ => none

/-- The text of a JSON string member, empty when it is missing. -/
def JSON.text (key : GoString) (j : JSON) : GoString :=
  match j.member key with
  | some (.string s) => s
  | _ => []

/-- An example decoder for one feed: `id`, `xsecToken` and `noteCard.displayTitle`. -/
def exampleDecodeFeed (j : JSON) : Feed :=
  { ID := j.text (goStr "id"), XsecToken := j.text (goStr "xsecToken"),
    NoteCard := ⟨((j.member (goStr "noteCard")).getD .null).text (goStr "displayTitle")⟩ }

/-- An example `JsonEnv`: names match exactly, and a `FeedsValue` is read from the array
under `_value`, the path that feeds.go names. -/
def exampleJson : JsonEnv :=
  { equalFold := fun a b => a = b,
    decodeFeedsValue := fun cur j =>
      match j with
      | .null => (cur, none)
      | .object members =>
        match (JSON.object members).member (goStr "_value") with
        | some (.array items) => (⟨items.map exampleDecodeFeed⟩, none)
        | some .null => (⟨[]⟩, none)
        | some _ => (cur, some unmarshalTypeError)
        | none => (cur, none)
      | _ => (cur, some unmarshalTypeError) }

/-- Whether a JSON value is refused by the decoding into a Go struct with the single field
`tag`: a boolean, number, string or array is refused, `null` is not, and an object is
refused when one of its members matches the field, by its exact name or by the
case-insensitive match of `encoding/json`, and has a value that `rejected` marks as
refused by the field. -/
def kindMismatch (env : JsonEnv) (tag : GoString) (rejected : JSON → Bool) : JSON → Bool
  | .null => false
  | .object members =>
    members.any (fun m => (decide (m.1 = tag) || env.equalFold m.1 tag) && rejected m.2)
  | _ => true

/-- Whether a state document is refused on the path that is decoded: at the root field
`tag` (`feed` or `search`), at the field `feeds` below it, or by the decoding of
`FeedsValue`, whose refused values are given by `rejected`. -/
def stateMismatch (env : JsonEnv) (tag : GoString) (rejected : JSON → Bool) (doc : JSON) :
    Bool :=
  kindMismatch env tag (kindMismatch env (goStr "feeds") rejected) doc

/-- The values that the example decoding of `FeedsValue` in `exampleJson` refuses. -/
def exampleRejected : JSON → Bool
  | .null => false
  | .object members =>
    match (JSON.object members).member (goStr "_value") with
    | some (.array _) => false
    | some .null => false
    | some _ => true
    | none => false
  | _ => true

/-- The example `JsonEnv` with member names matched without regard to ASCII letter case. -/
def foldingJson : JsonEnv :=
  { equalFold := fun a b =>
      a.map (fun c => if 65 ≤ c.val ∧ c.val ≤ 90 then c + 32 else c)
        = b.map (fun c => if 65 ≤ c.val ∧ c.val ≤ 90 then c + 32 else c),
    decodeFeedsValue := exampleJson.decodeFeedsValue }

/-- A page on which navigation, waits and evaluation work and the state is `doc`. -/
def statePage (doc : JSON) : StatePage :=
  { navigateOk := true, stableOk := true, waitOk := true, evalOk := true, state := .json doc }

/-! ## More of the Go library: strings, unicode, fmt -/

/-- The function `utf8.DecodeLastRuneInString`: the last rune of a string and its width.
The start of the rune is searched among the three bytes before the last one; the bytes
from there are decoded and must reach the end of the string exactly. -/
def decodeLastRune (s : GoString) : Nat × Nat :=
  match s.reverse with
  | [] => (RuneError, 0)
  | last :: before =>
    if last.val < 0x80 then (last.val, 1)
    else
      let isStart := fun (b : Fin 256) => decide (b.val / 64 ≠ 2)
      let n : Nat :=
        match before with
        | [] => 1
        | b1 :: rest1 =>
          if isStart b1 then 2
          else match rest1 with
            | [] => 2
            | b2 :: rest2 =>
              if isStart b2 then 3
              else match rest2 with
                | [] => 3
                | b3 :: rest3 =>
                  if isStart b3 then 4
                  else match rest3 with
                    | [] => 4
                    | _ :: _ => 5
      let d := decodeRune (s.drop (s.length - n))
      if d.2 = n then d else (RuneError, 1)

/-- The function `unicode.IsSpace`. -/
def IsSpace (r : Nat) : Bool :=
  if r ≤ 0xFF then
    r = 9 || r = 10 || r = 11 || r = 12 || r = 13 || r = 32 || r = 0x85 || r = 0xA0
  else
    r = 0x1680 || (decide (0x2000 ≤ r) && decide (r ≤ 0x200A)) || r = 0x2028 || r = 0x2029
      || r = 0x202F || r = 0x205F || r = 0x3000

/-- The loop of `strings.TrimLeftFunc`, with the string length as fuel. -/
def trimLeftFuncAux (f : Nat → Bool) : Nat → GoString → GoString
  | 0, s => s
  | _, [] => []
  | fuel + 1, b :: rest =>
    let d := decodeRune (b :: rest)
    if f d.1 then trimLeftFuncAux f fuel ((b :: rest).drop d.2) else b :: rest

/-- The function `strings.TrimLeftFunc`. -/
def TrimLeftFunc (s : GoString) (f : Nat → Bool) : GoString := trimLeftFuncAux f s.length s

/-- The function `lastIndexFunc(s, f, false)` of strings, as the length of the prefix that
ends right before the last rune not satisfying `f`; none stands for `-1`. -/
def lastIndexNot (f : Nat → Bool) : Nat → GoString → Option Nat
  | 0, _ => none
  | fuel + 1, s =>
    if s.length = 0 then none
    else
      let d := decodeLastRune s
      if f d.1 then lastIndexNot f fuel (s.take (s.length - d.2))
      else some (s.length - d.2)

/-- The function `strings.TrimRightFunc`. -/
def TrimRightFunc (s : GoString) (f : Nat → Bool) : GoString :=
  match lastIndexNot f s.length s with
  | none => s.take 0
  | some i =>
    match s.drop i with
    | b :: rest => if b.val ≥ 0x80 then s.take (i + (decodeRune (b :: rest)).2) else s.take (i + 1)
    | [] => s.take (i + 1)

/-- The function `strings.TrimFunc`. -/
def TrimFunc (s : GoString) (f : Nat → Bool) : GoString := TrimRightFunc (TrimLeftFunc s f) f

/-- The table `asciiSpace` of strings, on a byte below `0x80`. -/
def asciiSpace (c : Fin 256) : Bool :=
  c.val = 9 || c.val = 10 || c.val = 11 || c.val = 12 || c.val = 13 || c.val = 32

/-- The function `strings.TrimSpace`: ASCII space is trimmed byte by byte at both ends;
at the first byte of `0x80` or more the rune-wise trimming takes over. -/
def TrimSpace (s : GoString) : GoString :=
  let fromStart := s.dropWhile asciiSpace
  match fromStart with
  | [] => []
  | c :: _ =>
    if c.val ≥ 0x80 then TrimFunc fromStart IsSpace
    else
      let kept := (fromStart.reverse.dropWhile asciiSpace).reverse
      match kept.reverse with
      | [] => []
      | last :: _ => if last.val ≥ 0x80 then TrimRightFunc kept IsSpace else kept

/-- The case tables of Go's unicode package for runes above `MaxASCII`: what
`unicode.To(LowerCase, r)` and `unicode.To(UpperCase, r)` return. -/
structure UnicodeTables where
  toLower : Nat → Nat
  toUpper : Nat → Nat

/-- The function `unicode.ToLower`: an ASCII rune is handled without the tables. -/
def unicodeToLower (u : UnicodeTables) (r : Nat) : Nat :=
  if r ≤ 0x7F then (if 65 ≤ r ∧ r ≤ 90 then r + 32 else r) else u.toLower r

/-- The function `unicode.ToUpper`: an ASCII rune is handled without the tables. -/
def unicodeToUpper (u : UnicodeTables) (r : Nat) : Nat :=
  if r ≤ 0x7F then (if 97 ≤ r ∧ r ≤ 122 then r - 32 else r) else u.toUpper r

/-- The function `strings.Map` for a mapping that drops no rune: every rune of the input,
an invalid byte counting as `RuneError`, is replaced by the encoding of its image. -/
def Map (mapping : Nat → Nat) (s : GoString) : GoString :=
  (runes s).flatMap (fun r => utf8EncodeRune (mapping r))

/-- The function `strings.ToLower`: on an ASCII string the letters `A` to `Z` are shifted,
otherwise every rune goes through `unicode.ToLower`. -/
def ToLower (u : UnicodeTables) (s : GoString) : GoString :=
  if s.all (fun c => decide (c.val < 0x80)) then
    s.map (fun c => if 65 ≤ c.val ∧ c.val ≤ 90 then c + 32 else c)
  else Map (unicodeToLower u) s

/-- The function `strings.ToUpper`: on an ASCII string the letters `a` to `z` are shifted,
otherwise every rune goes through `unicode.ToUpper`. -/
def ToUpper (u : UnicodeTables) (s : GoString) : GoString :=
  if s.all (fun c => decide (c.val < 0x80)) then
    s.map (fun c => if 97 ≤ c.val ∧ c.val ≤ 122 then c - 32 else c)
  else Map (unicodeToUpper u) s

/-- The function `strings.ReplaceAll(s, old, new)` for an `old` of one byte. -/
def ReplaceAll (s : GoString) (old : Fin 256) (new : GoString) : GoString :=
  s.flatMap (fun c => if c = old then new else [c])

/-- The digit loop of `fmt` for `%d`: the decimal digits of `u` are put before `acc`,
the last digit first. -/
def fmtDigits : Nat → Nat → GoString → GoString
  | 0, _, acc => acc
  | fuel + 1, u, acc =>
    if u < 10 then Fin.ofNat (48 + u) :: acc
    else fmtDigits fuel (u / 10) (Fin.ofNat (48 + u % 10) :: acc)

/-- The result of `fmt.Sprintf("%d", n)` for a natural number. -/
def fmtInt (n : Nat) : GoString := fmtDigits (n + 1) n []

/-- The result of `fmt.Sprintf("%0*d", width, n)`: zeros are put in front up to the width. -/
def fmtIntPadded (width n : Nat) : GoString :=
  List.replicate (width - (fmtInt n).length) 48 ++ fmtInt n

/-! ## Archiving recommended feeds (service.go) -/

/-- The functions of Go's path/filepath that the archiver calls. -/
structure PathOps where
  Join : GoString → GoString → GoString
  Dir : GoString → GoString
  Base : GoString → GoString
  Ext : GoString → GoString

/-- The Windows reserved device names listed in `sanitizeFilename`. -/
def reservedNames : List GoString :=
  [goStr "CON", goStr "PRN", goStr "AUX", goStr "NUL",
   goStr "COM1", goStr "COM2", goStr "COM3", goStr "COM4", goStr "COM5", goStr "COM6",
   goStr "COM7", goStr "COM8", goStr "COM9",
   goStr "LPT1", goStr "LPT2", goStr "LPT3", goStr "LPT4", goStr "LPT5", goStr "LPT6",
   goStr "LPT7", goStr "LPT8", goStr "LPT9"]

/-- The bytes `<`, `>`, `:`, `"`, `\`, `/`, `|`, `?`, `*` replaced by `sanitizeFilename`. -/
def illegalBytes : List (Fin 256) := [60, 62, 58, 34, 92, 47, 124, 63, 42]

/-- The function `sanitizeFilename`. -/
def sanitizeFilename (u : UnicodeTables) (name : GoString) : GoString :=
  let name := TrimSpace name
  if name = [] then goStr "untitled"
  else
    let name := illegalBytes.foldl (fun name ch => ReplaceAll name ch (goStr "_")) name
    let upper := ToUpper u name
    let name := if reservedNames.contains upper then name ++ goStr "_" else name
    if name.length > 80 then name.take 80 else name

/-- The loop of `ensureUniquePath` from candidate number `i` on, `remaining` rounds left. -/
def ensureUniqueLoop (notExist : GoString → Bool) (cand : Nat → GoString) :
    Nat → Nat → Option GoString
  | 0, _ => none
  | remaining + 1, i =>
    if notExist (cand i) then some (cand i)
    else ensureUniqueLoop notExist cand remaining (i + 1)

/-- The function `ensureUniquePath`; `notExist p` tells whether `os.Stat(p)` reports that
the file does not exist. -/
def ensureUniquePath (fp : PathOps) (notExist : GoString → Bool) (path : GoString) : GoString :=
  if notExist path then path
  else
    let dir := fp.Dir path
    let base := fp.Base path
    let ext := fp.Ext base
    let name := TrimSuffix base ext
    let cand := fun (i : Nat) =>
      fp.Join dir (name ++ goStr "-(" ++ fmtInt i ++ goStr ")" ++ ext)
    match ensureUniqueLoop notExist cand 999 1 with
    | some c => c
    | none => path

/-- The author of a note. -/
structure User where
  Nickname : GoString
  UserID : GoString

/-- The counters of a note; only the like count is read. -/
structure InteractInfo where
  LikedCount : GoString

/-- An image of a note, with its preferred and its fallback address. -/
structure ImageInfo where
  URLDefault : GoString
  URLPre : GoString

/-- The note of a feed detail, with the fields that service.go reads. The type is
declared outside the given sources. -/
structure Note where
  Title : GoString
  NoteID : GoString
  Type_ : GoString
  User : User
  InteractInfo : InteractInfo
  IPLocation : GoString
  Desc : GoString
  ImageList : List ImageInfo

/-- The result of `GetFeedDetail`. -/
structure FeedDetail where
  Note : Note

/-- The local type `item` of `SaveRecommendedFeedsContent`. -/
structure Item where
  Title : GoString
  Content : GoString
  deriving DecidableEq

/-- The type `SaveFeedsResponse` of types.go. -/
structure SaveFeedsResponse where
  Saved : Nat
  Files : List GoString
  deriving DecidableEq

/-- The body of the per-feed loop of `SaveRecommendedFeedsContent` after a successful
detail fetch: the title with its fallbacks and the Markdown document. -/
def makeItem (f : Feed) (d : FeedDetail) : Item :=
  let note := d.Note
  let title := TrimSpace note.Title
  let title := if title = [] then f.NoteCard.DisplayTitle else title
  let title := if title = [] then f.ID else title
  let sb := goStr "# " ++ title ++ goStr "\n\n"
  let sb := sb ++ goStr "- NoteID: " ++ note.NoteID ++ goStr "\n- Type: " ++ note.Type_
  let sb :=
    if note.User.Nickname ≠ [] then
      let sb := sb ++ goStr "\n- Author: " ++ note.User.Nickname
      if note.User.UserID ≠ [] then sb ++ goStr " (@" ++ note.User.UserID ++ goStr ")" else sb
    else sb
  let sb :=
    if note.InteractInfo.LikedCount ≠ [] then
      sb ++ goStr "\n- Likes: " ++ note.InteractInfo.LikedCount
    else sb
  let sb := if note.IPLocation ≠ [] then sb ++ goStr "\n- Location: " ++ note.IPLocation else sb
  let sb := sb ++ goStr "\n\n## 内容\n\n"
  let sb := if TrimSpace note.Desc ≠ [] then sb ++ note.Desc ++ goStr "\n\n" else sb
  let sb :=
    if note.ImageList.length > 0 then
      sb ++ goStr "## 图片\n"
        ++ note.ImageList.flatMap (fun img =>
            if img.URLDefault ≠ [] then goStr "- " ++ img.URLDefault ++ goStr "\n"
            else if img.URLPre ≠ [] then goStr "- " ++ img.URLPre ++ goStr "\n"
            else [])
        ++ goStr "\n"
    else sb
  { Title := title, Content := sb }

/-- What `SaveRecommendedFeedsContent` meets outside itself: the Go library tables, the
working directory, the clock, the file system, the page with the injected state, and the
outcome of the `k`-th call of `GetFeedDetail` (a detail, or the error it returns). -/
structure SaveEnv where
  unicode : UnicodeTables
  fp : PathOps
  getwd : Except GoString GoString
  now : GoString
  mkdirAll : GoString → Option GoString
  notExist : GoString → Bool
  writeOk : GoString → Bool
  json : JsonEnv
  page : StatePage
  getFeedDetail : Nat → Feed → Except GoString FeedDetail

/-- Step 2 of `SaveRecommendedFeedsContent`: the detail of every feed is fetched in order,
`k` being the number of the call; a feed whose fetch fails is skipped. The result is the
calls made and the items collected. -/
def fetchItems (env : SaveEnv) : Nat → List Feed → List Action × List Item
  | _, [] => ([], [])
  | k, f :: rest =>
    let r := fetchItems env (k + 1) rest
    match env.getFeedDetail k f with
    | .error _ => (Action.feedDetail f.ID f.XsecToken :: r.1, r.2)
    | .ok d => (Action.feedDetail f.ID f.XsecToken :: r.1, makeItem f d :: r.2)

/-- One round of the file loop: the base name computed, the path it was written to, the
item, and whether `os.WriteFile` succeeded. -/
structure WriteAttempt where
  baseName : GoString
  path : GoString
  item : Item
  ok : Bool

/-- The base name `fmt.Sprintf("%0*d_%s.md", width, idx+1, safeTitle)`. -/
def baseNameOf (u : UnicodeTables) (width idx : Nat) (it : Item) : GoString :=
  let safeTitle := sanitizeFilename u it.Title
  fmtIntPadded width (idx + 1) ++ goStr "_" ++ safeTitle ++ goStr ".md"

/-- Step 4 of `SaveRecommendedFeedsContent`, the loop over the sorted items from index
`idx` on; `written` are the paths written so far, which exist from then on. -/
def writeItems (env : SaveEnv) (batchDir : GoString) (width : Nat) :
    Nat → List Item → List GoString → List WriteAttempt
  | _, [], _ => []
  | idx, it :: rest, written =>
    let baseName := baseNameOf env.unicode width idx it
    let fullPath := env.fp.Join batchDir baseName
    let fullPath :=
      ensureUniquePath env.fp (fun p => env.notExist p && !written.contains p) fullPath
    if env.writeOk fullPath then
      ⟨baseName, fullPath, it, true⟩
        :: writeItems env batchDir width (idx + 1) rest (fullPath :: written)
    else
      ⟨baseName, fullPath, it, false⟩ :: writeItems env batchDir width (idx + 1) rest written

/-- The comparison handed to `sort.Slice`: lower-cased titles in byte order. -/
def titleLess (u : UnicodeTables) (a b : Item) : Bool :=
  strLess (ToLower u a.Title) (ToLower u b.Title)

/-- Steps 3 and 4 of `SaveRecommendedFeedsContent`: sort the items by title, then write
them with a numeric prefix as wide as the decimal form of their number. -/
def saveItems (env : SaveEnv) (batchDir : GoString) (items : List Item) : List WriteAttempt :=
  let items := sortSlice (titleLess env.unicode) items
  let width := (fmtInt items.length).length
  writeItems env batchDir width 0 items []

/-- The output directory of `SaveRecommendedFeedsContent`: the given one, or `content`
under the working directory when it is blank. -/
def resolveOutputDir (env : SaveEnv) (outputDir : GoString) : Except GoString GoString :=
  if TrimSpace outputDir = [] then
    match env.getwd with
    | .error e => .error e
    | .ok cwd => .ok (env.fp.Join cwd (goStr "content"))
  else .ok outputDir

/-- The steps of `SaveRecommendedFeedsContent` after the feeds were listed: cut the list
at the limit, fetch the details, sort and write. -/
def saveFeeds (env : SaveEnv) (limit : Int) (batchDir : GoString) (feeds : List Feed) :
    Run SaveFeedsResponse :=
  if feeds.length = 0 then pure ⟨0, []⟩
  else
    let feeds := if (feeds.length : Int) > limit then feeds.take limit.toNat else feeds
    let fetched := fetchItems env 0 feeds
    Run.bind (acts fetched.1) (fun _ =>
      let items := fetched.2
      if items.length = 0 then pure ⟨0, []⟩
      else
        let attempts := saveItems env batchDir items
        Run.bind (acts (attempts.map (fun a => Action.writeFile a.path a.item.Content)))
          (fun _ =>
            let files := (attempts.filter (fun a => a.ok)).map (fun a => a.path)
            pure ⟨files.length, files⟩))

/-- The part of `SaveRecommendedFeedsContent` that runs on the page: list the feeds, then
go on with them. -/
def saveFromPage (env : SaveEnv) (limit : Int) (batchDir : GoString) : Run SaveFeedsResponse :=
  Run.bind (NewFeedsListAction env.page) (fun _ =>
    Run.bind (GetFeedsList env.json env.page) (fun feeds =>
      saveFeeds env limit batchDir feeds))

/-- The method `XiaohongshuService.SaveRecommendedFeedsContent`. -/
def SaveRecommendedFeedsContent (env : SaveEnv) (limit : Int) (outputDir : GoString) :
    Run SaveFeedsResponse :=
  let limit := if limit ≤ 0 then 10 else limit
  match resolveOutputDir env outputDir with
  | .error e => fail e
  | .ok outputDir =>
    let batchDir := env.fp.Join outputDir env.now
    match env.mkdirAll batchDir with
    | some e => ⟨[Action.mkdirAll batchDir], .error (.error e)⟩
    | none =>
      Run.bind (acts [Action.mkdirAll batchDir]) (fun _ =>
        Run.defer
          (Run.bind (acts [Action.launchBrowser]) (fun _ =>
            Run.defer
              (Run.bind (acts [Action.newPage]) (fun _ => saveFromPage env limit batchDir))
              Action.closePage))
          Action.closeBrowser)

/-- The `width` low decimal digits of `n`, the most significant first: what a
zero-padded number of that width looks like. -/
def fixedDigits : Nat → Nat → GoString
  | 0, _ => []
  | width + 1, n => fixedDigits width (n / 10) ++ [Fin.ofNat (48 + n % 10)]

/-- The feed of a `GetFeedDetail` call recorded in a trace. -/
def detailCall : Action → Option (GoString × GoString)
  | .feedDetail feedID xsecToken => some (feedID, xsecToken)
  | _ => none

/-- The `GetFeedDetail` calls of a trace, in order. -/
def detailCalls (trace : List Action) : List (GoString × GoString) := trace.filterMap detailCall

/-- Whether a Go call returned a nil error. -/
def succeeded {ε α : Type} : Except ε α → Bool
  | .ok _ => true
  | .error _ => false

/-- Example path functions for clean slash-separated paths. -/
def slashPaths : PathOps :=
  { Join := fun dir base => dir ++ goStr "/" ++ base,
    Dir := fun p => (p.reverse.dropWhile (fun c => c ≠ 47)).drop 1 |>.reverse,
    Base := fun p => (p.reverse.takeWhile (fun c => c ≠ 47)).reverse,
    Ext := fun p => if p.contains 46 then 46 :: (p.reverse.takeWhile (fun c => c ≠ 46)).reverse else [] }

/-- The JSON of a feed list under `feed.feeds._value`, one feed per identifier. -/
def feedsDocument (ids : List GoString) : JSON :=
  .object [(goStr "feed", .object [(goStr "feeds", .object [(goStr "_value",
    .array (ids.map (fun i => .object [(goStr "id", .string i)])))])])]

/-- An example environment: the home page lists one feed per entry, whose identifier is
the first component; the detail fetch of the `k`-th feed succeeds when the second
component of the `k`-th entry is true, and the note title is then the identifier. The
file system is empty and every write succeeds. -/
def exampleSaveEnv (feeds : List (GoString × Bool)) : SaveEnv :=
  { unicode := ⟨id, id⟩,
    fp := slashPaths,
    getwd := .ok (goStr "/work"),
    now := goStr "20240101_120000",
    mkdirAll := fun _ => none,
    notExist := fun _ => true,
    writeOk := fun _ => true,
    json := exampleJson,
    page := statePage (feedsDocument (feeds.map (fun f => f.1))),
    getFeedDetail := fun k f =>
      if (feeds.getD k ([], false)).2 then
        .ok ⟨⟨f.ID, f.ID, goStr "normal", ⟨[], []⟩, ⟨[]⟩, [], [], []⟩⟩
      else .error (goStr "detail not found") }

/-- Three items titled banana, Apple, cherry. -/
def fruitItems : List Item :=
  [⟨goStr "banana", goStr "b"⟩, ⟨goStr "Apple", goStr "a"⟩, ⟨goStr "cherry", goStr "c"⟩]

/-- Five feeds, the detail fetch of the third one failing. -/
def fiveFeeds : List (GoString × Bool) :=
  [(goStr "b", true), (goStr "A", true), (goStr "c", false), (goStr "d", true),
   (goStr "e", true)]

/-- The feeds that the home page of `exampleSaveEnv fiveFeeds` lists. -/
def fiveFeedsListed : List Feed := fiveFeeds.map (fun f => ⟨f.1, [], ⟨[]⟩⟩)

/-! ## File name safety, unique paths, the textbox ancestor -/

/-- What the replacement loop of `sanitizeFilename` does to one byte: an illegal byte
becomes `_`. -/
def sanitizeByte (c : Fin 256) : Fin 256 := if illegalBytes.contains c then 95 else c

/-- The loop of `utf8.ValidString`, with the string length as fuel: no decoding step
meets an invalid or truncated sequence. -/
def validAux : Nat → GoString → Bool
  | 0, s => s.isEmpty
  | _, [] => true
  | fuel + 1, b :: rest =>
    let d := decodeRune (b :: rest)
    if d.1 = RuneError ∧ d.2 = 1 then false
    else validAux fuel ((b :: rest).drop d.2)

/-- The function `utf8.ValidString`. -/
def ValidString (s : GoString) : Bool := validAux s.length s

/-- The tables for text without letter case, such as CJK ideographs. -/
def caselessTables : UnicodeTables := ⟨id, id⟩

/-- The candidate number `i` that `ensureUniquePath` builds for a path: the directory
joined with the base name, `-(i)` put between the name and its extension. -/
def numberedPath (fp : PathOps) (path : GoString) (i : Nat) : GoString :=
  fp.Join (fp.Dir path)
    (TrimSuffix (fp.Base path) (fp.Ext (fp.Base path)) ++ goStr "-(" ++ fmtInt i ++ goStr ")"
      ++ fp.Ext (fp.Base path))

/-- The result of `Element.Attribute`: the call fails, the attribute is missing (a nil
pointer), or it has a value. -/
inductive AttrResult
  | failed
  | missing
  | value (s : GoString)
  deriving DecidableEq

/-- The part of the page that `findTextboxParent` sees. Elements are numbered; `parent e`
is the element returned by `e.Parent()`, none when that call fails; `role e` is the
result of `e.Attribute("role")`. -/
structure Dom where
  parent : Nat → Option Nat
  role : Nat → AttrResult

/-- The loop of `findTextboxParent` with `rounds` iterations left. -/
def findTextboxLoop (dom : Dom) : Nat → Nat → Option Nat
  | 0, _ => none
  | rounds + 1, currentElem =>
    match dom.parent currentElem with
    | none => none
    | some parent =>
      match dom.role parent with
      | .failed => findTextboxLoop dom rounds parent
      | .missing => findTextboxLoop dom rounds parent
      | .value role =>
        if role = goStr "textbox" then some parent
        else findTextboxLoop dom rounds parent

/-- The function `findTextboxParent`; none stands for the nil result. -/
def findTextboxParent (dom : Dom) (elem : Nat) : Option Nat := findTextboxLoop dom 5 elem

/-- The first `n` ancestors of an element, the parent first; the chain ends where the
parent lookup fails. -/
def ancestors (dom : Dom) : Nat → Nat → List Nat
  | 0, _ => []
  | n + 1, e =>
    match dom.parent e with
    | none => []
    | some p => p :: ancestors dom n p

/-- Whether the role attribute of an element is present and equals `textbox`. -/
def hasTextboxRole (dom : Dom) (e : Nat) : Bool :=
  match dom.role e with
  | .value role => decide (role = goStr "textbox")
  | _ => false

/-- An example page: element 0 has the ancestors 1, 2, ... with the given role results,
and the parent lookup fails above the last of them. -/
def chainDom (roles : List AttrResult) : Dom :=
  { parent := fun e => if e < roles.length then some (e + 1) else none,
    role := fun e => if e = 0 then .missing else roles.getD (e - 1) .missing }

/-- A file system in which `/out/1_a.md` and `/out/1_a-(1).md` exist and nothing else. -/
def twoFilesExist (p : GoString) : Bool :=
  decide (p = goStr "/out/1_a.md") || decide (p = goStr "/out/1_a-(1).md")

/-- A chain of six ancestors of which only the sixth is a textbox. -/
def textboxAtSix : Dom :=
  chainDom [.missing, .value (goStr "button"), .failed, .missing, .missing,
    .value (goStr "textbox")]

/-- A chain of six ancestors of which the fifth and the sixth are textboxes. -/
def textboxAtFive : Dom :=
  chainDom [.missing, .value (goStr "button"), .failed, .missing, .value (goStr "textbox"),
    .value (goStr "textbox")]

/-- A chain of two ancestors without a textbox. -/
def shortChain : Dom := chainDom [.missing, .value (goStr "button")]

/-- A title of 27 copies of the ideograph `中`, 81 bytes of valid UTF-8. -/
def longCjkTitle : GoString := (List.replicate 27 (goStr "中")).flatten

/-! ## Theorems -/

/-! ### Title validation -/

theorem sum_weights (p : Nat → Bool) (l : List Nat) :
    (l.map (fun r => if p r then 2 else 1)).sum
      = 2 * l.countP p + l.countP (fun r => !p r) := by
  induction l with
  | nil => simp
  | cons r l ih =>
    cases h : p r <;> simp [List.countP_cons, h, ih] <;> omega

theorem PublishContent_trace_of_fits (env : PublishEnv) (req : PublishRequest)
    (h : ¬ 40 < StringWidth env.isWide req.Title) :
    ∃ rest, (PublishContent env req).trace = Action.processImages req.Images :: rest := by
  unfold PublishContent
  rw [if_neg h]
  simp only [bind, Run.bind, processImages]
  cases env.processImages req.Images with
  | error e => exact ⟨[], rfl⟩
  | ok paths => exact ⟨_, rfl⟩

/-- C1: the display width of the title counts every wide rune as 2 and every other rune
as 1; `PublishContent` returns the title error with an empty trace (no image processing,
no browser action) exactly when that width exceeds 40, and a title of width at most 40
passes on to image processing. -/
theorem PublishContent_title_width (env : PublishEnv) (req : PublishRequest) :
    StringWidth env.isWide req.Title
        = 2 * (runes req.Title).countP env.isWide
          + (runes req.Title).countP (fun r => !env.isWide r)
    ∧ (((PublishContent env req).out = .error (.error (goStr "标题长度超过限制"))
          ∧ (PublishContent env req).trace = [])
        ↔ 40 < StringWidth env.isWide req.Title)
    ∧ (StringWidth env.isWide req.Title ≤ 40 →
        (PublishContent env req).trace.head? = some (Action.processImages req.Images)) := by
  refine ⟨sum_weights _ _, ⟨?_, ?_⟩, ?_⟩
  · rintro ⟨_, htrace⟩
    by_contra hle
    obtain ⟨rest, hrest⟩ := PublishContent_trace_of_fits env req hle
    rw [hrest] at htrace
    exact List.cons_ne_nil _ _ htrace
  · intro hgt
    unfold PublishContent
    rw [if_pos hgt]
    exact ⟨rfl, rfl⟩
  · intro hle
    obtain ⟨rest, hrest⟩ := PublishContent_trace_of_fits env req (by omega)
    rw [hrest]
    rfl

/-- C1 at the boundary: forty ASCII letters (width 40) and twenty ideographs (width 40)
pass the title check, forty-one letters and twenty ideographs plus a letter (width 41)
are rejected before anything else happens. -/
theorem PublishContent_title_width_witness :
    StringWidth exampleEnv.isWide (List.replicate 40 97) = 40
    ∧ (PublishContent exampleEnv ⟨List.replicate 40 97, [], [], []⟩).trace.head?
        = some (Action.processImages [])
    ∧ StringWidth exampleEnv.isWide (goStr "小红书小红书小红书小红书小红书小红书小红") = 40
    ∧ (PublishContent exampleEnv ⟨goStr "小红书小红书小红书小红书小红书小红书小红", [], [], []⟩).trace.head?
        = some (Action.processImages [])
    ∧ ((PublishContent exampleEnv ⟨List.replicate 41 97, [], [], []⟩).out
          = .error (.error (goStr "标题长度超过限制"))
        ∧ (PublishContent exampleEnv ⟨List.replicate 41 97, [], [], []⟩).trace = [])
    ∧ ((PublishContent exampleEnv ⟨goStr "小红书小红书小红书小红书小红书小红书小红a", [], [], []⟩).out
          = .error (.error (goStr "标题长度超过限制"))
        ∧ (PublishContent exampleEnv
            ⟨goStr "小红书小红书小红书小红书小红书小红书小红a", [], [], []⟩).trace = []) :=
  ⟨by decide,
   (PublishContent_title_width exampleEnv ⟨List.replicate 40 97, [], [], []⟩).2.2 (by decide),
   by decide,
   (PublishContent_title_width exampleEnv
      ⟨goStr "小红书小红书小红书小红书小红书小红书小红", [], [], []⟩).2.2 (by decide),
   (PublishContent_title_width exampleEnv ⟨List.replicate 41 97, [], [], []⟩).2.1.2 (by decide),
   (PublishContent_title_width exampleEnv
      ⟨goStr "小红书小红书小红书小红书小红书小红书小红a", [], [], []⟩).2.1.2 (by decide)⟩

/-! ### Login check -/

/-- C2: once the explore page has loaded, `CheckLoginStatus` returns a pair `(ok, err)`
whose error is non-nil exactly when the marker query returned an error; a successful query
gives `(false, nil)` for an absent marker and `(true, nil)` for a present one. -/
theorem CheckLoginStatus_error_iff (page : LoginPage)
    (hnav : page.navigateOk = true) (hload : page.loadOk = true) :
    ∃ isLoggedIn err, (CheckLoginStatus page).out = .ok (isLoggedIn, err)
      ∧ (err ≠ none ↔ page.hasErr ≠ none)
      ∧ (page.hasErr = none → page.hasExists = false → (isLoggedIn, err) = (false, none))
      ∧ (page.hasErr = none → page.hasExists = true → (isLoggedIn, err) = (true, none)) := by
  obtain ⟨nav, load, ex, herr⟩ := page
  simp only at hnav hload
  subst hnav hload
  cases herr with
  | some e =>
    exact ⟨false, some (wrapMsg e (goStr "check login status failed")), rfl, by simp, by simp,
      by simp⟩
  | none =>
    cases ex with
    | false => exact ⟨false, none, rfl, by simp, by simp, by simp⟩
    | true => exact ⟨true, none, rfl, by simp, by simp, by simp⟩

/-- C2 on three pages: a query error (marker reported present or not), an absent marker,
a present marker. -/
theorem CheckLoginStatus_error_iff_witness :
    (∃ isLoggedIn err,
        (CheckLoginStatus ⟨true, true, false, some (goStr "context canceled")⟩).out
          = .ok (isLoggedIn, err)
        ∧ (err ≠ none ↔ (some (goStr "context canceled") : Option GoString) ≠ none)
        ∧ ((some (goStr "context canceled") : Option GoString) = none → false = false →
            (isLoggedIn, err) = (false, none))
        ∧ ((some (goStr "context canceled") : Option GoString) = none → false = true →
            (isLoggedIn, err) = (true, none)))
    ∧ (CheckLoginStatus ⟨true, true, false, none⟩).out = .ok (false, none)
    ∧ (CheckLoginStatus ⟨true, true, true, none⟩).out = .ok (true, none) :=
  ⟨CheckLoginStatus_error_iff ⟨true, true, false, some (goStr "context canceled")⟩ rfl rfl,
   rfl, rfl⟩

/-! ### Search URL -/

set_option maxRecDepth 100000 in
theorem hex_roundtrip : ∀ c : Fin 256,
    ishex (upperhex (c.val / 16)) = true ∧ ishex (upperhex (c.val % 16)) = true
    ∧ (Fin.ofNat (unhex (upperhex (c.val / 16)) * 16 + unhex (upperhex (c.val % 16))) : Fin 256)
        = c := by
  decide

set_option maxRecDepth 100000 in
theorem upperhex_not_sep : ∀ c : Fin 256,
    upperhex (c.val / 16) ≠ 38 ∧ upperhex (c.val / 16) ≠ 61
    ∧ upperhex (c.val % 16) ≠ 38 ∧ upperhex (c.val % 16) ≠ 61 := by
  decide

set_option maxRecDepth 100000 in
theorem kept_byte_plain : ∀ c : Fin 256, shouldEscape c = false →
    c.val ≠ 37 ∧ c.val ≠ 43 ∧ c ≠ 38 ∧ c ≠ 61 := by
  decide

theorem QueryUnescape_percent (h1 h2 : Fin 256) (rest : GoString)
    (hh1 : ishex h1 = true) (hh2 : ishex h2 = true) :
    QueryUnescape (37 :: h1 :: h2 :: rest)
      = (QueryUnescape rest).map (fun t => Fin.ofNat (unhex h1 * 16 + unhex h2) :: t) := by
  have h37 : ((37 : Fin 256).val = 37) := rfl
  simp only [QueryUnescape, h37, hh1, hh2, if_true, Bool.and_self]

theorem QueryUnescape_plus (rest : GoString) :
    QueryUnescape (43 :: rest) = (QueryUnescape rest).map (fun t => 32 :: t) := by
  conv_lhs => unfold QueryUnescape
  rw [if_neg (by decide), if_pos (by decide)]

theorem QueryUnescape_plain (c : Fin 256) (rest : GoString)
    (h37 : c.val ≠ 37) (h43 : c.val ≠ 43) :
    QueryUnescape (c :: rest) = (QueryUnescape rest).map (fun t => c :: t) := by
  conv_lhs => unfold QueryUnescape
  simp only [h37, h43, if_false]

theorem QueryEscape_cons (c : Fin 256) (s : GoString) :
    QueryEscape (c :: s)
      = (if c.val = 32 then [43]
          else if shouldEscape c then [37, upperhex (c.val / 16), upperhex (c.val % 16)]
          else [c]) ++ QueryEscape s := by
  simp [QueryEscape, List.flatMap_cons]

theorem QueryUnescape_QueryEscape (s : GoString) : QueryUnescape (QueryEscape s) = some s := by
  induction s with
  | nil => rfl
  | cons c s ih =>
    rw [QueryEscape_cons]
    by_cases hsp : c.val = 32
    · have hc : c = 32 := Fin.ext hsp
      subst hc
      rw [if_pos hsp]
      show QueryUnescape (43 :: QueryEscape s) = _
      rw [QueryUnescape_plus, ih]
      rfl
    · rw [if_neg hsp]
      cases hesc : shouldEscape c with
      | true =>
        obtain ⟨h1, h2, h3⟩ := hex_roundtrip c
        show QueryUnescape (37 :: upperhex (c.val / 16) :: upperhex (c.val % 16)
          :: QueryEscape s) = _
        rw [QueryUnescape_percent _ _ _ h1 h2, ih, h3]
        rfl
      | false =>
        obtain ⟨h37, h43, _, _⟩ := kept_byte_plain c hesc
        show QueryUnescape (c :: QueryEscape s) = _
        rw [QueryUnescape_plain _ _ h37 h43, ih]
        rfl

theorem QueryEscape_no_separator (s : GoString) : ∀ c ∈ QueryEscape s, c ≠ 38 ∧ c ≠ 61 := by
  intro c hc
  simp only [QueryEscape, List.mem_flatMap] at hc
  obtain ⟨b, _, hb⟩ := hc
  by_cases hsp : b.val = 32
  · rw [if_pos hsp] at hb
    simp at hb
    subst hb
    decide
  · rw [if_neg hsp] at hb
    cases hesc : shouldEscape b with
    | true =>
      rw [hesc] at hb
      obtain ⟨h1, h2, h3, h4⟩ := upperhex_not_sep b
      simp at hb
      rcases hb with hb | hb | hb
      · subst hb; decide
      · subst hb; exact ⟨h1, h2⟩
      · subst hb; exact ⟨h3, h4⟩
    | false =>
      rw [hesc] at hb
      simp at hb
      subst hb
      obtain ⟨_, _, h38, h61⟩ := kept_byte_plain c hesc
      exact ⟨h38, h61⟩

theorem keyword_ne_source : ¬ (goStr "keyword" = goStr "source") := by decide

theorem source_not_less : strLess (goStr "source") (goStr "keyword") = false := by decide

theorem escape_keyword_key : QueryEscape (goStr "keyword") = goStr "keyword" := by decide

theorem escape_source_key : QueryEscape (goStr "source") = goStr "source" := by decide

theorem escape_source_value :
    QueryEscape (goStr "web_explore_feed") = goStr "web_explore_feed" := by decide

theorem makeSearchURL_eq (keyword : GoString) :
    makeSearchURL keyword
      = goStr "https://www.xiaohongshu.com/search_result?"
        ++ (goStr "keyword=" ++ QueryEscape keyword ++ goStr "&source=web_explore_feed") := by
  have hk : goStr "keyword=" = goStr "keyword" ++ [61] := by decide
  have hs : goStr "&source=web_explore_feed"
      = [38] ++ goStr "source" ++ [61] ++ goStr "web_explore_feed" := by decide
  simp [makeSearchURL, Values.Set, Values.Encode, sortSlice, sinkLeft, keyword_ne_source,
    source_not_less, escape_keyword_key, escape_source_key, escape_source_value, hk, hs,
    List.append_assoc]

/-- C3: `makeSearchURL` returns the search-result address followed by `keyword=` and the
query-escaped keyword, then `&source=web_explore_feed`; the escaped keyword contains no
`&` and no `=`, so these are exactly two parameters; unescaping the keyword parameter
gives the keyword back; for `coffee` the query is `keyword=coffee&source=web_explore_feed`. -/
theorem makeSearchURL_query (keyword : GoString) :
    makeSearchURL keyword
        = goStr "https://www.xiaohongshu.com/search_result?"
          ++ (goStr "keyword=" ++ QueryEscape keyword ++ goStr "&source=web_explore_feed")
    ∧ (∀ c ∈ QueryEscape keyword, c ≠ 38 ∧ c ≠ 61)
    ∧ QueryUnescape (QueryEscape keyword) = some keyword
    ∧ makeSearchURL (goStr "coffee")
        = goStr "https://www.xiaohongshu.com/search_result?keyword=coffee&source=web_explore_feed" :=
  ⟨makeSearchURL_eq keyword, QueryEscape_no_separator keyword,
   QueryUnescape_QueryEscape keyword, by decide⟩

/-! ### Tags -/

theorem TrimLeft_hash_spec (tag : GoString) :
    (TrimLeft tag (goStr "#")).head? ≠ some 35
    ∧ ∃ k, tag = List.replicate k 35 ++ TrimLeft tag (goStr "#") := by
  have hcut : goStr "#" = [35] := by decide
  rw [hcut]
  unfold TrimLeft
  induction tag with
  | nil => exact ⟨by simp, 0, by simp⟩
  | cons b s ih =>
    by_cases hb : b = 35
    · subst hb
      obtain ⟨h1, k, hk⟩ := ih
      have hdrop : List.dropWhile (fun b => [(35 : Fin 256)].contains b) (35 :: s)
          = List.dropWhile (fun b => [(35 : Fin 256)].contains b) s := by
        simp [List.dropWhile_cons]
      rw [hdrop]
      refine ⟨h1, k + 1, ?_⟩
      rw [List.replicate_succ, List.cons_append, ← hk]
    · have hdrop : List.dropWhile (fun b => [(35 : Fin 256)].contains b) (b :: s) = b :: s := by
        simp [List.dropWhile_cons, hb]
      rw [hdrop]
      refine ⟨?_, 0, by simp⟩
      simp only [List.head?_cons, ne_eq, Option.some.injEq]
      exact hb

/-- C4: for a non-empty tag list, `inputTags` runs its key-press prelude and then calls
`inputTag` once per tag, in order, with the tag stripped of its leading `#` bytes: the
text passed never starts with `#`, and the tag is a run of `#` followed by that text, so
every later `#` is kept. -/
theorem inputTags_strips_leading_hashes (page : PublishPage) (tags : List GoString)
    (hne : tags ≠ []) :
    inputTags page tags
        = inputTagsPrelude
          ++ tags.flatMap (fun tag => inputTag page (TrimLeft tag (goStr "#")))
    ∧ ∀ tag ∈ tags,
        (TrimLeft tag (goStr "#")).head? ≠ some 35
        ∧ ∃ k, tag = List.replicate k 35 ++ TrimLeft tag (goStr "#") := by
  constructor
  · unfold inputTags
    have hlen : ¬ tags.length = 0 := by
      intro h
      exact hne (List.length_eq_zero.mp h)
    rw [if_neg hlen]
  · intro tag _
    exact TrimLeft_hash_spec tag

/-- C4 on the tags `##foo`, `bar` and `#a#b`: the texts typed are `foo`, `bar`, `a#b`. -/
theorem inputTags_strips_leading_hashes_witness :
    (inputTags cooperativePage [goStr "##foo", goStr "bar", goStr "#a#b"]
        = inputTagsPrelude
          ++ [goStr "##foo", goStr "bar", goStr "#a#b"].flatMap
              (fun tag => inputTag cooperativePage (TrimLeft tag (goStr "#")))
      ∧ ∀ tag ∈ [goStr "##foo", goStr "bar", goStr "#a#b"],
          (TrimLeft tag (goStr "#")).head? ≠ some 35
          ∧ ∃ k, tag = List.replicate k 35 ++ TrimLeft tag (goStr "#"))
    ∧ [goStr "##foo", goStr "bar", goStr "#a#b"].map (fun tag => TrimLeft tag (goStr "#"))
        = [goStr "foo", goStr "bar", goStr "a#b"] :=
  ⟨inputTags_strips_leading_hashes cooperativePage [goStr "##foo", goStr "bar", goStr "#a#b"]
      (by decide),
   by decide⟩

/-! ### Empty image list -/

/-- C5 fails as stated: with an empty image list on a cooperative page, `publishContent`
ends in the validation error, but the creator page has been navigated to before. -/
theorem publishContent_empty_images_navigates :
    (publishContent cooperativePage ⟨goStr "t", goStr "c", [], []⟩).out
        = .error (.error (goStr "图片不能为空"))
    ∧ Action.navigate urlOfPublic
        ∈ (publishContent cooperativePage ⟨goStr "t", goStr "c", [], []⟩).trace := by
  decide

/-- C5 as amended: with an empty image list, `Publish` returns the validation error
without any page action of its own (no upload, no typing, no submit); when the creator
page opens, `publishContent` ends in that error after the session was opened, the
creator page navigated to and the image tab selected, and the session is closed. -/
theorem Publish_empty_images (page : PublishPage) (content : PublishImageContent)
    (himg : content.ImagePaths = []) :
    Publish page content = fail (goStr "图片不能为空")
    ∧ (page.navigateOk = true → page.uploadContentVisible = true →
        (publishContent page content).out = .error (.error (goStr "图片不能为空"))
        ∧ (publishContent page content).trace
            = [Action.launchBrowser, Action.newPage, Action.navigate urlOfPublic,
                Action.waitVisible (goStr "div.upload-content"), Action.sleep 1000,
                Action.elements (goStr "div.creator-tab")]
              ++ selectImageTab page.tabs
              ++ [Action.sleep 1000, Action.closePage, Action.closeBrowser]) := by
  have hpub : Publish page content = fail (goStr "图片不能为空") := by
    unfold Publish
    rw [himg]
    rfl
  refine ⟨hpub, ?_⟩
  intro hnav hvis
  unfold publishContent
  rw [hpub]
  simp [NewPublishImageAction, Run.defer, Run.bind, bind, must, acts, fail, hnav, hvis]

/-- C5 as amended, on the cooperative page with a request without images. -/
theorem Publish_empty_images_witness :
    Publish cooperativePage ⟨goStr "t", goStr "c", [goStr "#tag"], []⟩
        = fail (goStr "图片不能为空")
    ∧ (publishContent cooperativePage ⟨goStr "t", goStr "c", [goStr "#tag"], []⟩).out
        = .error (.error (goStr "图片不能为空"))
    ∧ (publishContent cooperativePage ⟨goStr "t", goStr "c", [goStr "#tag"], []⟩).trace
        = [Action.launchBrowser, Action.newPage, Action.navigate urlOfPublic,
            Action.waitVisible (goStr "div.upload-content"), Action.sleep 1000,
            Action.elements (goStr "div.creator-tab")]
          ++ selectImageTab cooperativePage.tabs
          ++ [Action.sleep 1000, Action.closePage, Action.closeBrowser] :=
  ⟨(Publish_empty_images cooperativePage ⟨goStr "t", goStr "c", [goStr "#tag"], []⟩ rfl).1,
   (Publish_empty_images cooperativePage ⟨goStr "t", goStr "c", [goStr "#tag"], []⟩ rfl).2
      rfl rfl⟩

/-! ### Decoding the injected state -/

theorem decodeStruct_no_match {β : Type} (env : JsonEnv) (tag : GoString)
    (dec : β → JSON → β × Option GoString) (cur : β) (members : List (GoString × JSON))
    (h : ∀ m ∈ members, (m.1 = tag || env.equalFold m.1 tag) = false) :
    decodeStruct env tag dec cur (.object members) = (cur, none) := by
  unfold decodeStruct
  simp only
  induction members with
  | nil => rfl
  | cons m ms ih =>
    have hm : (decide (m.1 = tag) || env.equalFold m.1 tag) = false :=
      h m (List.mem_cons_self _ _)
    rw [List.foldl_cons]
    simp only [hm, Bool.false_eq_true, if_false]
    exact ih (fun x hx => h x (List.mem_cons_of_mem _ hx))

theorem orElse_isSome (a b : Option GoString) : (a <|> b).isSome = (a.isSome || b.isSome) := by
  cases a <;> cases b <;> rfl

theorem foldl_members_flag {β : Type} (env : JsonEnv) (tag : GoString)
    (dec : β → JSON → β × Option GoString) (bad : JSON → Bool)
    (hbad : ∀ cur v, (dec cur v).2.isSome = bad v) :
    ∀ (members : List (GoString × JSON)) (acc : β × Option GoString),
      (members.foldl
          (fun acc m =>
            if m.1 = tag || env.equalFold m.1 tag then
              let r := dec acc.1 m.2
              (r.1, acc.2 <|> r.2)
            else acc)
          acc).2.isSome
        = (acc.2.isSome
            || members.any (fun m =>
                (decide (m.1 = tag) || env.equalFold m.1 tag) && bad m.2)) := by
  intro members
  induction members with
  | nil => intro acc; simp
  | cons m ms ih =>
    intro acc
    rw [List.foldl_cons, ih, List.any_cons]
    by_cases hm : (decide (m.1 = tag) || env.equalFold m.1 tag) = true
    · simp only [hm, if_true, Bool.true_and, orElse_isSome, hbad, Bool.or_assoc]
    · have hmf : (decide (m.1 = tag) || env.equalFold m.1 tag) = false := by simpa using hm
      simp only [hmf, Bool.false_eq_true, if_false, Bool.false_and, Bool.false_or]

theorem decodeStruct_flag {β : Type} (env : JsonEnv) (tag : GoString)
    (dec : β → JSON → β × Option GoString) (bad : JSON → Bool)
    (hbad : ∀ cur v, (dec cur v).2.isSome = bad v) (cur : β) (doc : JSON) :
    (decodeStruct env tag dec cur doc).2.isSome = kindMismatch env tag bad doc := by
  cases doc with
  | object members =>
    unfold decodeStruct kindMismatch
    simp only
    rw [foldl_members_flag env tag dec bad hbad members (cur, none)]
    simp
  | null => rfl
  | bool b => rfl
  | number t => rfl
  | string t => rfl
  | array items => rfl

theorem foldl_members_error {β : Type} (env : JsonEnv) (tag : GoString)
    (dec : β → JSON → β × Option GoString) :
    ∀ (members : List (GoString × JSON)) (acc : β × Option GoString),
      (acc.2.isSome = true
        ∨ ∃ m ∈ members, (m.1 = tag || env.equalFold m.1 tag) = true
            ∧ ∀ cur, (dec cur m.2).2.isSome = true) →
      (members.foldl
          (fun acc m =>
            if m.1 = tag || env.equalFold m.1 tag then
              let r := dec acc.1 m.2
              (r.1, acc.2 <|> r.2)
            else acc)
          acc).2.isSome = true := by
  intro members
  induction members with
  | nil =>
    intro acc h
    rcases h with h | ⟨m, hm, _⟩
    · exact h
    · simp at hm
  | cons x xs ih =>
    intro acc h
    rw [List.foldl_cons]
    apply ih
    by_cases hx : (decide (x.1 = tag) || env.equalFold x.1 tag) = true
    · simp only [hx, if_true, orElse_isSome]
      rcases h with h | ⟨m, hm, hmatch, herr⟩
      · left
        simp [h]
      · rw [List.mem_cons] at hm
        rcases hm with hm | hm
        · subst hm
          left
          simp [herr acc.1]
        · exact Or.inr ⟨m, hm, hmatch, herr⟩
    · have hxf : (decide (x.1 = tag) || env.equalFold x.1 tag) = false := by simpa using hx
      simp only [hxf, Bool.false_eq_true, if_false]
      rcases h with h | ⟨m, hm, hmatch, herr⟩
      · exact Or.inl h
      · rw [List.mem_cons] at hm
        rcases hm with hm | hm
        · subst hm
          rw [hxf] at hmatch
          exact absurd hmatch (by simp)
        · exact Or.inr ⟨m, hm, hmatch, herr⟩

theorem decodeStruct_member_error {β : Type} (env : JsonEnv) (tag : GoString)
    (dec : β → JSON → β × Option GoString) (cur : β) (members : List (GoString × JSON))
    (h : ∃ m ∈ members, (m.1 = tag || env.equalFold m.1 tag) = true
          ∧ ∀ cur, (dec cur m.2).2.isSome = true) :
    (decodeStruct env tag dec cur (.object members)).2.isSome = true := by
  unfold decodeStruct
  simp only
  exact foldl_members_error env tag dec members (cur, none) (Or.inr h)

theorem decodeStruct_scalar_error {β : Type} (env : JsonEnv) (tag : GoString)
    (dec : β → JSON → β × Option GoString) (cur : β) (v : JSON)
    (hv : v.isScalarOrArray = true) :
    (decodeStruct env tag dec cur v).2.isSome = true := by
  cases v with
  | null => simp [JSON.isScalarOrArray] at hv
  | object members => simp [JSON.isScalarOrArray] at hv
  | bool b => rfl
  | number t => rfl
  | string t => rfl
  | array items => rfl

theorem decodeFeedResponse_error_iff (env : JsonEnv) (doc : JSON) :
    (∃ e, decodeFeedResponse env doc = .error e)
      ↔ (decodeStruct env (goStr "feed")
          (decodeStruct env (goStr "feeds") env.decodeFeedsValue) ⟨[]⟩ doc).2.isSome = true := by
  unfold decodeFeedResponse
  simp only
  cases (decodeStruct env (goStr "feed")
      (decodeStruct env (goStr "feeds") env.decodeFeedsValue) ⟨[]⟩ doc).2 with
  | none => simp
  | some e => simp

theorem decodeSearchResult_error_iff (env : JsonEnv) (doc : JSON) :
    (∃ e, decodeSearchResult env doc = .error e)
      ↔ (decodeStruct env (goStr "search")
          (decodeStruct env (goStr "feeds") env.decodeFeedsValue) ⟨[]⟩ doc).2.isSome = true := by
  unfold decodeSearchResult
  simp only
  cases (decodeStruct env (goStr "search")
      (decodeStruct env (goStr "feeds") env.decodeFeedsValue) ⟨[]⟩ doc).2 with
  | none => simp
  | some e => simp

theorem exampleJson_rejected (cur : FeedsValue) (v : JSON) :
    (exampleJson.decodeFeedsValue cur v).2.isSome = exampleRejected v := by
  cases v with
  | object members =>
    simp only [exampleJson, exampleRejected]
    cases hm : (JSON.object members).member (goStr "_value") with
    | none => rfl
    | some w => cases w <;> rfl
  | null => rfl
  | bool b => rfl
  | number t => rfl
  | string t => rfl
  | array items => rfl

/-- C6 fails as stated: the empty object `{}` is valid JSON without a feed or search
sub-tree, yet the decode step of `Search`, `Search` as a whole on a page whose state is
`{}`, and the decode step of `GetFeedsList` succeed with a nil feed list. -/
theorem decode_empty_object_succeeds :
    decodeSearchResult exampleJson (.object []) = .ok []
    ∧ (Search exampleJson (statePage (.object [])) (goStr "coffee")).out = .ok []
    ∧ decodeFeedResponse exampleJson (.object []) = .ok [] := by
  decide

/-- C6 as amended: both decode steps return an error when the document root is a boolean,
a number, a string or an array, and when the root is an object with a member that matches
`feed` (for `GetFeedsList`) or `search` (for `Search`), by its exact name or by the
case-insensitive match of `encoding/json`, and whose value is a boolean, a number, a
string or an array. When no member of the root object matches, the decode step returns no
error and a nil feed list. When the refusal of a value by the decoding of `FeedsValue`
depends on the value only, an error is returned exactly when the document is refused on
the decoded path (`stateMismatch`). -/
theorem decode_unexpected_structure (env : JsonEnv) (doc : JSON) :
    (doc.isScalarOrArray = true →
        (∃ e, decodeFeedResponse env doc = .error e)
        ∧ (∃ e, decodeSearchResult env doc = .error e))
    ∧ (∀ members, doc = .object members →
        ((∃ m ∈ members,
            (m.1 = goStr "feed" || env.equalFold m.1 (goStr "feed")) = true
            ∧ m.2.isScalarOrArray = true) →
          ∃ e, decodeFeedResponse env doc = .error e)
        ∧ ((∃ m ∈ members,
            (m.1 = goStr "search" || env.equalFold m.1 (goStr "search")) = true
            ∧ m.2.isScalarOrArray = true) →
          ∃ e, decodeSearchResult env doc = .error e)
        ∧ ((∀ m ∈ members,
            (m.1 = goStr "feed" || env.equalFold m.1 (goStr "feed")) = false) →
          decodeFeedResponse env doc = .ok [])
        ∧ ((∀ m ∈ members,
            (m.1 = goStr "search" || env.equalFold m.1 (goStr "search")) = false) →
          decodeSearchResult env doc = .ok []))
    ∧ (∀ rejected : JSON → Bool,
        (∀ cur v, (env.decodeFeedsValue cur v).2.isSome = rejected v) →
        ((∃ e, decodeFeedResponse env doc = .error e)
            ↔ stateMismatch env (goStr "feed") rejected doc = true)
        ∧ ((∃ e, decodeSearchResult env doc = .error e)
            ↔ stateMismatch env (goStr "search") rejected doc = true)) := by
  refine ⟨?_, ?_, ?_⟩
  · intro hdoc
    exact ⟨(decodeFeedResponse_error_iff env doc).mpr
        (decodeStruct_scalar_error env _ _ _ doc hdoc),
      (decodeSearchResult_error_iff env doc).mpr
        (decodeStruct_scalar_error env _ _ _ doc hdoc)⟩
  · intro members hdoc
    subst hdoc
    refine ⟨?_, ?_, ?_, ?_⟩
    · rintro ⟨m, hm, hmatch, hscalar⟩
      exact (decodeFeedResponse_error_iff env _).mpr
        (decodeStruct_member_error env _ _ _ members
          ⟨m, hm, hmatch, fun cur => decodeStruct_scalar_error env _ _ cur m.2 hscalar⟩)
    · rintro ⟨m, hm, hmatch, hscalar⟩
      exact (decodeSearchResult_error_iff env _).mpr
        (decodeStruct_member_error env _ _ _ members
          ⟨m, hm, hmatch, fun cur => decodeStruct_scalar_error env _ _ cur m.2 hscalar⟩)
    · intro h
      unfold decodeFeedResponse
      rw [decodeStruct_no_match env _ _ _ members h]
    · intro h
      unfold decodeSearchResult
      rw [decodeStruct_no_match env _ _ _ members h]
  · intro rejected hrej
    have hinner : ∀ (cur : FeedsValue) (v : JSON),
        (decodeStruct env (goStr "feeds") env.decodeFeedsValue cur v).2.isSome
          = kindMismatch env (goStr "feeds") rejected v :=
      fun cur v => decodeStruct_flag env _ _ rejected hrej cur v
    constructor
    · rw [decodeFeedResponse_error_iff, decodeStruct_flag env _ _ _ hinner]
      rfl
    · rw [decodeSearchResult_error_iff, decodeStruct_flag env _ _ _ hinner]
      rfl

/-- C6 as amended, on the number `3`; on `{"search":3}` and `{"feed":[]}`; on
`{"SEARCH":3}`, an error when names are matched without regard to case and a nil list
when they are matched exactly; on `{"user":{}}`; and on `{"search":{"feeds":{"_value":3}}}`,
refused by the example decoding of `FeedsValue`. -/
theorem decode_unexpected_structure_witness :
    ((∃ e, decodeFeedResponse exampleJson (.number (goStr "3")) = .error e)
      ∧ (∃ e, decodeSearchResult exampleJson (.number (goStr "3")) = .error e))
    ∧ (∃ e, decodeSearchResult exampleJson
        (.object [(goStr "search", .number (goStr "3"))]) = .error e)
    ∧ (∃ e, decodeFeedResponse exampleJson (.object [(goStr "feed", .array [])]) = .error e)
    ∧ (∃ e, decodeSearchResult foldingJson
        (.object [(goStr "SEARCH", .number (goStr "3"))]) = .error e)
    ∧ decodeSearchResult exampleJson (.object [(goStr "SEARCH", .number (goStr "3"))]) = .ok []
    ∧ decodeFeedResponse exampleJson (.object [(goStr "user", .object [])]) = .ok []
    ∧ decodeSearchResult exampleJson (.object [(goStr "user", .object [])]) = .ok []
    ∧ (∃ e, decodeSearchResult exampleJson
        (.object [(goStr "search", .object [(goStr "feeds",
          .object [(goStr "_value", .number (goStr "3"))])])]) = .error e) :=
  ⟨(decode_unexpected_structure exampleJson (.number (goStr "3"))).1 rfl,
   ((decode_unexpected_structure exampleJson
      (.object [(goStr "search", .number (goStr "3"))])).2.1 _ rfl).2.1
      ⟨(goStr "search", .number (goStr "3")), List.mem_cons_self _ _, by decide, rfl⟩,
   ((decode_unexpected_structure exampleJson
      (.object [(goStr "feed", .array [])])).2.1 _ rfl).1
      ⟨(goStr "feed", .array []), List.mem_cons_self _ _, by decide, rfl⟩,
   ((decode_unexpected_structure foldingJson
      (.object [(goStr "SEARCH", .number (goStr "3"))])).2.1 _ rfl).2.1
      ⟨(goStr "SEARCH", .number (goStr "3")), List.mem_cons_self _ _, by decide, rfl⟩,
   ((decode_unexpected_structure exampleJson
      (.object [(goStr "SEARCH", .number (goStr "3"))])).2.1 _ rfl).2.2.2 (by decide),
   ((decode_unexpected_structure exampleJson
      (.object [(goStr "user", .object [])])).2.1 _ rfl).2.2.1 (by decide),
   ((decode_unexpected_structure exampleJson
      (.object [(goStr "user", .object [])])).2.1 _ rfl).2.2.2 (by decide),
   ((decode_unexpected_structure exampleJson
      (.object [(goStr "search", .object [(goStr "feeds",
        .object [(goStr "_value", .number (goStr "3"))])])])).2.2
      exampleRejected exampleJson_rejected).2.mpr (by decide)⟩

/-! ### Byte order on strings -/

theorem strLess_irrefl (s : GoString) : strLess s s = false := by
  induction s with
  | nil => rfl
  | cons a s ih => simp [strLess, ih]

theorem strLess_cons (a b : Fin 256) (s t : GoString) :
    strLess (a :: s) (b :: t)
      = if a.val < b.val then true else if b.val < a.val then false else strLess s t := by
  rw [strLess]

theorem strLess_trans (s t u : GoString)
    (hst : strLess s t = true) (htu : strLess t u = true) : strLess s u = true := by
  induction s generalizing t u with
  | nil =>
    cases t with
    | nil => simp [strLess] at hst
    | cons b t =>
      cases u with
      | nil => simp [strLess] at htu
      | cons c u => rfl
  | cons a s ih =>
    cases t with
    | nil => simp [strLess] at hst
    | cons b t =>
      cases u with
      | nil => simp [strLess] at htu
      | cons c u =>
        rw [strLess_cons] at hst htu ⊢
        by_cases hab : a.val < b.val
        · by_cases hbc : b.val < c.val
          · rw [if_pos (by omega)]
          · rw [if_neg hbc] at htu
            by_cases hcb : c.val < b.val
            · rw [if_pos hcb] at htu
              exact absurd htu (by simp)
            · rw [if_pos (by omega)]
        · rw [if_neg hab] at hst
          by_cases hba : b.val < a.val
          · rw [if_pos hba] at hst
            exact absurd hst (by simp)
          · rw [if_neg hba] at hst
            have hEq : a.val = b.val := by omega
            by_cases hbc : b.val < c.val
            · rw [if_pos (by omega)]
            · rw [if_neg hbc] at htu
              by_cases hcb : c.val < b.val
              · rw [if_pos hcb] at htu
                exact absurd htu (by simp)
              · rw [if_neg hcb] at htu
                rw [if_neg (by omega), if_neg (by omega)]
                exact ih t u hst htu

theorem strLess_total (s t : GoString) :
    strLess s t = true ∨ s = t ∨ strLess t s = true := by
  induction s generalizing t with
  | nil =>
    cases t with
    | nil => exact Or.inr (Or.inl rfl)
    | cons b t => exact Or.inl rfl
  | cons a s ih =>
    cases t with
    | nil => exact Or.inr (Or.inr rfl)
    | cons b t =>
      rw [strLess_cons, strLess_cons]
      by_cases hab : a.val < b.val
      · exact Or.inl (by rw [if_pos hab])
      · by_cases hba : b.val < a.val
        · exact Or.inr (Or.inr (by rw [if_pos hba]))
        · have hEq : a = b := Fin.ext (by omega)
          subst hEq
          simp only [lt_irrefl, if_false]
          rcases ih t with h | h | h
          · exact Or.inl h
          · exact Or.inr (Or.inl (by rw [h]))
          · exact Or.inr (Or.inr h)

theorem strLess_asymm (s t : GoString) (h : strLess s t = true) : strLess t s = false := by
  cases hts : strLess t s with
  | false => rfl
  | true =>
    have := strLess_trans s t s h hts
    rw [strLess_irrefl] at this
    exact absurd this (by simp)

theorem strLess_negTrans (s t u : GoString)
    (hst : strLess s t = false) (htu : strLess t u = false) : strLess s u = false := by
  cases hsu : strLess s u with
  | false => rfl
  | true =>
    rcases strLess_total s t with h | h | h
    · rw [h] at hst
      exact absurd hst (by simp)
    · subst h
      rw [hsu] at htu
      exact absurd htu (by simp)
    · have := strLess_trans t s u h hsu
      rw [this] at htu
      exact absurd htu (by simp)

/-! ### Sorting -/

theorem sinkLeft_perm {α : Type} (less : α → α → Bool) (x : α) (l : List α) :
    (sinkLeft less x l).Perm (x :: l) := by
  induction l with
  | nil => exact List.Perm.refl _
  | cons y ys ih =>
    unfold sinkLeft
    by_cases h : less x y = true
    · rw [if_pos h]
      exact (List.Perm.cons y ih).trans (List.Perm.swap x y ys)
    · rw [if_neg h]

theorem sinkLeft_pairwise {α : Type} (less : α → α → Bool)
    (hasymm : ∀ a b, less a b = true → less b a = false)
    (hneg : ∀ a b c, less a b = false → less b c = false → less a c = false)
    (x : α) (l : List α) (hl : l.Pairwise (fun a b => less a b = false)) :
    (sinkLeft less x l).Pairwise (fun a b => less a b = false) := by
  induction l with
  | nil => simp [sinkLeft]
  | cons y ys ih =>
    rw [List.pairwise_cons] at hl
    unfold sinkLeft
    by_cases h : less x y = true
    · rw [if_pos h, List.pairwise_cons]
      refine ⟨?_, ih hl.2⟩
      intro z hz
      have hz2 : z ∈ x :: ys := (List.Perm.mem_iff (sinkLeft_perm less x ys)).mp hz
      rw [List.mem_cons] at hz2
      rcases hz2 with hz2 | hz2
      · subst hz2
        exact hasymm _ _ h
      · exact hl.1 z hz2
    · rw [if_neg h]
      have hxy : less x y = false := by simpa using h
      rw [List.pairwise_cons, List.pairwise_cons]
      refine ⟨?_, hl.1, hl.2⟩
      intro z hz
      simp only [List.mem_cons] at hz
      rcases hz with hz | hz
      · subst hz
        exact hxy
      · exact hneg x y z hxy (hl.1 z hz)

theorem foldl_sinkLeft_perm {α : Type} (less : α → α → Bool) (data acc : List α) :
    (data.foldl (fun sortedRev x => sinkLeft less x sortedRev) acc).Perm (data ++ acc) := by
  induction data generalizing acc with
  | nil => exact List.Perm.refl _
  | cons x xs ih =>
    rw [List.foldl_cons]
    refine (ih (sinkLeft less x acc)).trans ?_
    refine (List.Perm.append_left xs (sinkLeft_perm less x acc)).trans ?_
    exact (List.perm_middle).trans (List.Perm.refl _)

theorem foldl_sinkLeft_pairwise {α : Type} (less : α → α → Bool)
    (hasymm : ∀ a b, less a b = true → less b a = false)
    (hneg : ∀ a b c, less a b = false → less b c = false → less a c = false)
    (data acc : List α) (hacc : acc.Pairwise (fun a b => less a b = false)) :
    (data.foldl (fun sortedRev x => sinkLeft less x sortedRev) acc).Pairwise
      (fun a b => less a b = false) := by
  induction data generalizing acc with
  | nil => exact hacc
  | cons x xs ih =>
    rw [List.foldl_cons]
    exact ih _ (sinkLeft_pairwise less hasymm hneg x acc hacc)

theorem sortSlice_perm {α : Type} (less : α → α → Bool) (data : List α) :
    (sortSlice less data).Perm data := by
  unfold sortSlice
  refine (List.reverse_perm _).trans ?_
  simpa using foldl_sinkLeft_perm less data []

theorem sortSlice_sorted {α : Type} (less : α → α → Bool)
    (hasymm : ∀ a b, less a b = true → less b a = false)
    (hneg : ∀ a b c, less a b = false → less b c = false → less a c = false)
    (data : List α) :
    (sortSlice less data).Pairwise (fun a b => less b a = false) := by
  unfold sortSlice
  rw [List.pairwise_reverse]
  exact foldl_sinkLeft_pairwise less hasymm hneg data [] List.Pairwise.nil

theorem sortSlice_length {α : Type} (less : α → α → Bool) (data : List α) :
    (sortSlice less data).length = data.length :=
  (sortSlice_perm less data).length_eq

theorem titleLess_asymm (u : UnicodeTables) (a b : Item)
    (h : titleLess u a b = true) : titleLess u b a = false :=
  strLess_asymm _ _ h

theorem titleLess_negTrans (u : UnicodeTables) (a b c : Item)
    (hab : titleLess u a b = false) (hbc : titleLess u b c = false) :
    titleLess u a c = false :=
  strLess_negTrans _ _ _ hab hbc

/-! ### Decimal numbers -/

theorem fmtDigits_acc (fuel u : Nat) (acc : GoString) :
    fmtDigits fuel u acc = fmtDigits fuel u [] ++ acc := by
  induction fuel generalizing u acc with
  | zero => rfl
  | succ fuel ih =>
    unfold fmtDigits
    by_cases hu : u < 10
    · rw [if_pos hu, if_pos hu]
      rfl
    · rw [if_neg hu, if_neg hu, ih (u / 10) (Fin.ofNat (48 + u % 10) :: acc),
        ih (u / 10) [Fin.ofNat (48 + u % 10)], List.append_assoc]
      rfl

theorem fixedDigits_zero (w : Nat) : fixedDigits w 0 = List.replicate w 48 := by
  induction w with
  | zero => rfl
  | succ w ih =>
    unfold fixedDigits
    rw [Nat.zero_div, ih]
    exact (List.replicate_succ' w (48 : Fin 256)).symm

theorem fixedDigits_length (w n : Nat) : (fixedDigits w n).length = w := by
  induction w generalizing n with
  | zero => rfl
  | succ w ih =>
    unfold fixedDigits
    rw [List.length_append, ih]
    rfl

theorem fmtDigits_fixed (fuel : Nat) :
    ∀ (n w : Nat), n < 10 ^ w → n < 10 ^ fuel → 1 ≤ w →
      ∃ k, k + (fmtDigits fuel n []).length = w
        ∧ List.replicate k 48 ++ fmtDigits fuel n [] = fixedDigits w n := by
  induction fuel with
  | zero =>
    intro n w _ hfuel hw
    have hn : n = 0 := by simpa using hfuel
    subst hn
    exact ⟨w, by simp [fmtDigits], by simp [fmtDigits, fixedDigits_zero]⟩
  | succ fuel ih =>
    intro n w hnw hfuel hw
    obtain ⟨w, rfl⟩ : ∃ w', w = w' + 1 := ⟨w - 1, by omega⟩
    unfold fmtDigits
    by_cases hn : n < 10
    · rw [if_pos hn]
      refine ⟨w, by simp, ?_⟩
      unfold fixedDigits
      rw [Nat.div_eq_of_lt hn, Nat.mod_eq_of_lt hn, fixedDigits_zero]
    · rw [if_neg hn, fmtDigits_acc]
      have hdiv_w : n / 10 < 10 ^ w := by
        rw [Nat.div_lt_iff_lt_mul (by norm_num)]
        rw [pow_succ] at hnw
        exact hnw
      have hdiv_f : n / 10 < 10 ^ fuel := by
        rw [Nat.div_lt_iff_lt_mul (by norm_num)]
        rw [pow_succ] at hfuel
        exact hfuel
      have hw1 : 1 ≤ w := by
        rcases Nat.eq_zero_or_pos w with h0 | hpos
        · subst h0
          simp at hnw
          omega
        · exact hpos
      obtain ⟨k, hk, hfix⟩ := ih (n / 10) w hdiv_w hdiv_f hw1
      refine ⟨k, by rw [List.length_append]; simp; omega, ?_⟩
      rw [← List.append_assoc, hfix]
      rfl

theorem lt_ten_pow_succ (n : Nat) : n < 10 ^ (n + 1) := by
  induction n with
  | zero => norm_num
  | succ n ih =>
    have h1 : 10 ^ (n + 1 + 1) = 10 * 10 ^ (n + 1) := by rw [pow_succ]; ring
    omega

theorem fmtIntPadded_eq_fixed (w n : Nat) (hn : n < 10 ^ w) (hw : 1 ≤ w) :
    fmtIntPadded w n = fixedDigits w n := by
  obtain ⟨k, hk, hfix⟩ := fmtDigits_fixed (n + 1) n w hn (lt_ten_pow_succ n) hw
  unfold fmtIntPadded fmtInt
  have hk2 : w - (fmtDigits (n + 1) n []).length = k := by omega
  rw [hk2, hfix]

theorem fmtDigits_length_bound (fuel : Nat) :
    ∀ n, n < 10 ^ fuel → n < 10 ^ (fmtDigits fuel n []).length := by
  induction fuel with
  | zero =>
    intro n hn
    simpa [fmtDigits] using hn
  | succ fuel ih =>
    intro n hn
    unfold fmtDigits
    by_cases h10 : n < 10
    · rw [if_pos h10]
      simpa using h10
    · rw [if_neg h10, fmtDigits_acc, List.length_append]
      have hdiv_f : n / 10 < 10 ^ fuel := by
        rw [Nat.div_lt_iff_lt_mul (by norm_num)]
        rw [pow_succ] at hn
        exact hn
      have := ih (n / 10) hdiv_f
      rw [List.length_singleton, pow_succ]
      omega

theorem fmtInt_length_bound (n : Nat) : n < 10 ^ (fmtInt n).length :=
  fmtDigits_length_bound (n + 1) n (lt_ten_pow_succ n)

theorem fmtInt_length_pos (n : Nat) : 1 ≤ (fmtInt n).length := by
  unfold fmtInt fmtDigits
  by_cases h10 : n < 10
  · rw [if_pos h10]
    simp
  · rw [if_neg h10, fmtDigits_acc, List.length_append]
    simp

theorem strLess_append_left (p x y : GoString) (a b : Fin 256) (hab : a.val < b.val) :
    strLess (p ++ a :: x) (p ++ b :: y) = true := by
  induction p with
  | nil =>
    show strLess (a :: x) (b :: y) = true
    rw [strLess_cons, if_pos hab]
  | cons c p ih =>
    show strLess (c :: (p ++ a :: x)) (c :: (p ++ b :: y)) = true
    rw [strLess_cons, if_neg (lt_irrefl _), if_neg (lt_irrefl _)]
    exact ih

theorem fixedDigits_less (w : Nat) :
    ∀ (i j : Nat) (x y : GoString), i < j → j < 10 ^ w →
      strLess (fixedDigits w i ++ x) (fixedDigits w j ++ y) = true := by
  induction w with
  | zero =>
    intro i j x y hij hj
    simp at hj
    omega
  | succ w ih =>
    intro i j x y hij hj
    unfold fixedDigits
    rw [List.append_assoc, List.append_assoc]
    have hdiv : j / 10 < 10 ^ w := by
      rw [Nat.div_lt_iff_lt_mul (by norm_num)]
      rw [pow_succ] at hj
      exact hj
    by_cases hlt : i / 10 < j / 10
    · exact ih (i / 10) (j / 10) _ _ hlt hdiv
    · have heq : i / 10 = j / 10 := by omega
      rw [heq]
      apply strLess_append_left
      show (48 + i % 10) % 256 < (48 + j % 10) % 256
      omega

theorem fmtIntPadded_less (w i j : Nat) (x y : GoString)
    (hij : i < j) (hj : j < 10 ^ w) (hw : 1 ≤ w) :
    strLess (fmtIntPadded w i ++ x) (fmtIntPadded w j ++ y) = true := by
  rw [fmtIntPadded_eq_fixed w i (by omega) hw, fmtIntPadded_eq_fixed w j hj hw]
  exact fixedDigits_less w i j x y hij hj

/-! ### Writing the sorted items -/

theorem writeItems_items (env : SaveEnv) (batchDir : GoString) (width : Nat)
    (items : List Item) :
    ∀ (idx : Nat) (written : List GoString),
      (writeItems env batchDir width idx items written).map (fun a => a.item) = items := by
  induction items with
  | nil => intro idx written; rfl
  | cons it rest ih =>
    intro idx written
    unfold writeItems
    simp only
    split
    · rw [List.map_cons, ih]
    · rw [List.map_cons, ih]

theorem writeItems_baseNames (env : SaveEnv) (batchDir : GoString) (width : Nat)
    (items : List Item) :
    ∀ (idx : Nat) (written : List GoString),
      (writeItems env batchDir width idx items written).map (fun a => a.baseName)
        = (items.enumFrom idx).map (fun p => baseNameOf env.unicode width p.1 p.2) := by
  induction items with
  | nil => intro idx written; rfl
  | cons it rest ih =>
    intro idx written
    unfold writeItems
    simp only
    split
    · rw [List.map_cons, ih, List.enumFrom_cons, List.map_cons]
    · rw [List.map_cons, ih, List.enumFrom_cons, List.map_cons]

theorem writeItems_all_ok (env : SaveEnv) (batchDir : GoString) (width : Nat)
    (hwrite : ∀ p, env.writeOk p = true) (items : List Item) :
    ∀ (idx : Nat) (written : List GoString),
      ∀ a ∈ writeItems env batchDir width idx items written, a.ok = true := by
  induction items with
  | nil =>
    intro idx written a ha
    simp [writeItems] at ha
  | cons it rest ih =>
    intro idx written a ha
    unfold writeItems at ha
    simp only [hwrite, if_true, List.mem_cons] at ha
    rcases ha with ha | ha
    · rw [ha]
    · exact ih _ _ a ha

theorem writeItems_length (env : SaveEnv) (batchDir : GoString) (width : Nat)
    (items : List Item) (idx : Nat) (written : List GoString) :
    (writeItems env batchDir width idx items written).length = items.length := by
  have h := congrArg List.length (writeItems_items env batchDir width items idx written)
  rwa [List.length_map] at h

/-- C7: the items that `SaveRecommendedFeedsContent` writes, in the order of writing, are
a permutation of the fetched items, and of two items the one written first has the
smaller or the same lower-cased title; when every write succeeds each of them is
written. -/
theorem saveItems_writes_sorted_permutation (env : SaveEnv) (batchDir : GoString)
    (items : List Item) :
    ((saveItems env batchDir items).map (fun a => a.item)).Perm items
    ∧ ((saveItems env batchDir items).map (fun a => a.item)).Pairwise
        (fun a b =>
          strLess (ToLower env.unicode a.Title) (ToLower env.unicode b.Title) = true
          ∨ ToLower env.unicode a.Title = ToLower env.unicode b.Title)
    ∧ ((∀ p, env.writeOk p = true) → ∀ a ∈ saveItems env batchDir items, a.ok = true) := by
  have hitems : (saveItems env batchDir items).map (fun a => a.item)
      = sortSlice (titleLess env.unicode) items := by
    unfold saveItems
    exact writeItems_items env batchDir _ _ 0 []
  refine ⟨?_, ?_, ?_⟩
  · rw [hitems]
    exact sortSlice_perm _ _
  · rw [hitems]
    refine List.Pairwise.imp ?_
      (sortSlice_sorted (titleLess env.unicode) (titleLess_asymm env.unicode)
        (titleLess_negTrans env.unicode) items)
    intro a b hba
    rcases strLess_total (ToLower env.unicode a.Title) (ToLower env.unicode b.Title)
      with h | h | h
    · exact Or.inl h
    · exact Or.inr h
    · unfold titleLess at hba
      rw [h] at hba
      exact absurd hba (by simp)
  · intro hwrite a ha
    unfold saveItems at ha
    exact writeItems_all_ok env batchDir _ hwrite _ 0 [] a ha

/-- C7 on the titles banana, Apple, cherry: they are written in the order Apple, banana,
cherry, and all three are written. -/
theorem saveItems_writes_sorted_permutation_witness :
    ((saveItems (exampleSaveEnv []) (goStr "/out") fruitItems).map (fun a => a.item)).Perm
        fruitItems
    ∧ (∀ a ∈ saveItems (exampleSaveEnv []) (goStr "/out") fruitItems, a.ok = true)
    ∧ (saveItems (exampleSaveEnv []) (goStr "/out") fruitItems).map (fun a => a.item.Title)
        = [goStr "Apple", goStr "banana", goStr "cherry"] :=
  ⟨(saveItems_writes_sorted_permutation (exampleSaveEnv []) (goStr "/out") fruitItems).1,
   (saveItems_writes_sorted_permutation (exampleSaveEnv []) (goStr "/out") fruitItems).2.2
      (fun _ => rfl),
   by decide⟩

/-! ### File names -/

/-- C8 fails as stated: for the three titles banana, Apple, cherry the base file names
are not `01_Apple.md`, `02_banana.md`, `03_cherry.md`. -/
theorem saveItems_three_names_not_two_digits :
    (saveItems (exampleSaveEnv []) (goStr "/out") fruitItems).map (fun a => a.baseName)
      ≠ [goStr "01_Apple.md", goStr "02_banana.md", goStr "03_cherry.md"] := by
  decide

/-- C8 as amended: for the three titles banana, Apple, cherry the base file names are
`1_Apple.md`, `2_banana.md`, `3_cherry.md`, the prefix being as wide as the decimal form
of the batch size 3, and the files returned carry these names. -/
theorem saveItems_three_names :
    (saveItems (exampleSaveEnv []) (goStr "/out") fruitItems).map (fun a => a.baseName)
        = [goStr "1_Apple.md", goStr "2_banana.md", goStr "3_cherry.md"]
    ∧ (SaveRecommendedFeedsContent
          (exampleSaveEnv [(goStr "banana", true), (goStr "Apple", true),
            (goStr "cherry", true)]) 0 (goStr "/out")).out
        = .ok ⟨3, [goStr "/out/20240101_120000/1_Apple.md",
                   goStr "/out/20240101_120000/2_banana.md",
                   goStr "/out/20240101_120000/3_cherry.md"]⟩ := by
  decide

theorem mem_enumFrom_bounds {α : Type} (l : List α) :
    ∀ (n : Nat) (p : Nat × α), p ∈ l.enumFrom n → n ≤ p.1 ∧ p.1 < n + l.length := by
  induction l with
  | nil => intro n p hp; simp at hp
  | cons x xs ih =>
    intro n p hp
    rw [List.enumFrom_cons, List.mem_cons] at hp
    rcases hp with hp | hp
    · subst hp
      simp
    · have := ih (n + 1) p hp
      simp only [List.length_cons]
      omega

theorem baseNames_pairwise (u : UnicodeTables) (width : Nat) (hw : 1 ≤ width)
    (items : List Item) :
    ∀ (idx : Nat), idx + items.length < 10 ^ width →
      ((items.enumFrom idx).map (fun p => baseNameOf u width p.1 p.2)).Pairwise
        (fun a b => strLess a b = true) := by
  induction items with
  | nil => intro idx _; exact List.Pairwise.nil
  | cons it rest ih =>
    intro idx hbound
    simp only [List.length_cons] at hbound
    rw [List.enumFrom_cons, List.map_cons, List.pairwise_cons]
    refine ⟨?_, ih (idx + 1) (by omega)⟩
    intro name hname
    rw [List.mem_map] at hname
    obtain ⟨p, hp, rfl⟩ := hname
    have hb := mem_enumFrom_bounds rest (idx + 1) p hp
    unfold baseNameOf
    simp only [List.append_assoc]
    exact fmtIntPadded_less width (idx + 1) (p.1 + 1) _ _ (by omega) (by omega) hw

/-- C9: the base file names of a batch are, in the order of the sorted items, the item's
position (from 1) zero-padded to the number of decimal digits of the batch size, then
`_`, the sanitized title and `.md`; of two names the earlier one is strictly smaller in
byte order, whatever the titles are. -/
theorem saveItems_names_increasing (env : SaveEnv) (batchDir : GoString) (items : List Item) :
    (saveItems env batchDir items).map (fun a => a.baseName)
        = ((sortSlice (titleLess env.unicode) items).enumFrom 0).map
            (fun p =>
              fmtIntPadded (fmtInt items.length).length (p.1 + 1) ++ goStr "_"
                ++ sanitizeFilename env.unicode p.2.Title ++ goStr ".md")
    ∧ ((saveItems env batchDir items).map (fun a => a.baseName)).length = items.length
    ∧ ((saveItems env batchDir items).map (fun a => a.baseName)).Pairwise
        (fun a b => strLess a b = true) := by
  have hnames : (saveItems env batchDir items).map (fun a => a.baseName)
      = ((sortSlice (titleLess env.unicode) items).enumFrom 0).map
          (fun p => baseNameOf env.unicode (fmtInt items.length).length p.1 p.2) := by
    unfold saveItems
    simp only
    rw [writeItems_baseNames, sortSlice_length]
  refine ⟨hnames, ?_, ?_⟩
  · rw [List.length_map]
    unfold saveItems
    rw [writeItems_length, sortSlice_length]
  · rw [hnames]
    apply baseNames_pairwise env.unicode _ (fmtInt_length_pos _)
    rw [sortSlice_length, Nat.zero_add]
    exact fmtInt_length_bound _

/-! ### Partial failure of the detail fetch -/

theorem Run.bind_ok {α β : Type} (x : Run α) (f : α → Run β) (a : α) (h : x.out = .ok a) :
    Run.bind x f = ⟨x.trace ++ (f a).trace, (f a).out⟩ := by
  unfold Run.bind
  rw [h]

theorem detailCalls_append (s t : List Action) :
    detailCalls (s ++ t) = detailCalls s ++ detailCalls t := by
  unfold detailCalls
  exact List.filterMap_append _ _ _

theorem NewFeedsListAction_ok (page : StatePage)
    (hnav : page.navigateOk = true) (hstable : page.stableOk = true) :
    (NewFeedsListAction page).out = .ok ()
    ∧ detailCalls (NewFeedsListAction page).trace = [] := by
  simp [NewFeedsListAction, bind, Run.bind, must, hnav, hstable, detailCalls, detailCall]

theorem decodeState_trace (decode : JSON → Except GoString (List Feed)) (st : StateText) :
    (decodeState decode st).trace = [] := by
  cases st with
  | empty => rfl
  | malformed => rfl
  | json doc =>
    simp only [decodeState]
    split <;> rfl

theorem GetFeedsList_detailCalls (json : JsonEnv) (page : StatePage) :
    detailCalls (GetFeedsList json page).trace = [] := by
  have h := decodeState_trace (decodeFeedResponse json) page.state
  unfold GetFeedsList
  simp only [bind, Run.bind, must]
  cases page.waitOk <;> cases page.evalOk <;>
    cases hd : (decodeState (decodeFeedResponse json) page.state).out <;>
    simp [h, hd, detailCalls, detailCall]

theorem fetchItems_trace (env : SaveEnv) (feeds : List Feed) :
    ∀ k, (fetchItems env k feeds).1
      = feeds.map (fun f => Action.feedDetail f.ID f.XsecToken) := by
  induction feeds with
  | nil => intro k; rfl
  | cons f rest ih =>
    intro k
    unfold fetchItems
    simp only
    split <;> simp [ih]

theorem fetchItems_count (env : SaveEnv) (feeds : List Feed) :
    ∀ k, (fetchItems env k feeds).2.length
      = (feeds.enumFrom k).countP (fun p => succeeded (env.getFeedDetail p.1 p.2)) := by
  induction feeds with
  | nil => intro k; rfl
  | cons f rest ih =>
    intro k
    unfold fetchItems
    simp only
    rw [List.enumFrom_cons, List.countP_cons]
    split
    · rename_i e he
      simp [ih, he, succeeded]
    · rename_i d hd
      simp [ih, hd, succeeded]

theorem detailCalls_fetch (feeds : List Feed) :
    detailCalls (feeds.map (fun f => Action.feedDetail f.ID f.XsecToken))
      = feeds.map (fun f => (f.ID, f.XsecToken)) := by
  induction feeds with
  | nil => rfl
  | cons f rest ih =>
    unfold detailCalls at ih ⊢
    simp [List.filterMap_cons, detailCall, ih]

theorem detailCalls_writes (attempts : List WriteAttempt) :
    detailCalls (attempts.map (fun a => Action.writeFile a.path a.item.Content)) = [] := by
  induction attempts with
  | nil => rfl
  | cons a rest ih =>
    unfold detailCalls at ih ⊢
    simp [List.filterMap_cons, detailCall, ih]

theorem take_limit (feeds : List Feed) (limit : Int) (hpos : 0 < limit) :
    (if (feeds.length : Int) > limit then feeds.take limit.toNat else feeds)
      = feeds.take limit.toNat := by
  split
  · rfl
  · rename_i h
    rw [List.take_of_length_le]
    omega

theorem saveFeeds_ok (env : SaveEnv) (limit : Int) (hpos : 0 < limit) (batchDir : GoString)
    (feeds : List Feed) (hwrite : ∀ p, env.writeOk p = true) :
    ∃ resp, (saveFeeds env limit batchDir feeds).out = .ok resp
      ∧ resp.Saved = ((feeds.take limit.toNat).enumFrom 0).countP
          (fun p => succeeded (env.getFeedDetail p.1 p.2))
      ∧ resp.Files.length = resp.Saved
      ∧ detailCalls (saveFeeds env limit batchDir feeds).trace
          = (feeds.take limit.toNat).map (fun f => (f.ID, f.XsecToken)) := by
  unfold saveFeeds
  by_cases hempty : feeds.length = 0
  · rw [if_pos hempty]
    have hnil : feeds = [] := List.length_eq_zero.mp hempty
    subst hnil
    exact ⟨⟨0, []⟩, rfl, by simp, rfl, by simp [detailCalls, pure]⟩
  · rw [if_neg hempty]
    simp only [take_limit feeds limit hpos]
    rw [Run.bind_ok _ _ () rfl]
    simp only [acts, fetchItems_trace, detailCalls_append, detailCalls_fetch]
    by_cases hitems : (fetchItems env 0 (feeds.take limit.toNat)).2.length = 0
    · rw [if_pos hitems]
      refine ⟨⟨0, []⟩, rfl, ?_, rfl, by simp [detailCalls, pure]⟩
      rw [← fetchItems_count, hitems]
    · rw [if_neg hitems, Run.bind_ok _ _ () rfl]
      have hall : ∀ a ∈ saveItems env batchDir (fetchItems env 0 (feeds.take limit.toNat)).2,
          a.ok = true := by
        intro a ha
        unfold saveItems at ha
        exact writeItems_all_ok env batchDir _ hwrite _ 0 [] a ha
      have hfilter : (saveItems env batchDir (fetchItems env 0 (feeds.take limit.toNat)).2).filter
          (fun a => a.ok) = saveItems env batchDir (fetchItems env 0 (feeds.take limit.toNat)).2 :=
        List.filter_eq_self.mpr hall
      have hlen : (saveItems env batchDir (fetchItems env 0 (feeds.take limit.toNat)).2).length
          = (fetchItems env 0 (feeds.take limit.toNat)).2.length := by
        unfold saveItems
        rw [writeItems_length, sortSlice_length]
      refine ⟨_, rfl, ?_, ?_, ?_⟩
      · simp only [hfilter, List.length_map, hlen]
        exact fetchItems_count env _ 0
      · rfl
      · rw [detailCalls_append, detailCalls_writes]
        simp [detailCalls, pure]

theorem saveFromPage_ok (env : SaveEnv) (limit : Int) (hpos : 0 < limit) (batchDir : GoString)
    (feeds : List Feed)
    (hnav : env.page.navigateOk = true) (hstable : env.page.stableOk = true)
    (hfeeds : (GetFeedsList env.json env.page).out = .ok feeds)
    (hwrite : ∀ p, env.writeOk p = true) :
    ∃ resp, (saveFromPage env limit batchDir).out = .ok resp
      ∧ resp.Saved = ((feeds.take limit.toNat).enumFrom 0).countP
          (fun p => succeeded (env.getFeedDetail p.1 p.2))
      ∧ resp.Files.length = resp.Saved
      ∧ detailCalls (saveFromPage env limit batchDir).trace
          = (feeds.take limit.toNat).map (fun f => (f.ID, f.XsecToken)) := by
  obtain ⟨hnew, hnewCalls⟩ := NewFeedsListAction_ok env.page hnav hstable
  obtain ⟨resp, hout, hsaved, hfiles, hcalls⟩ :=
    saveFeeds_ok env limit hpos batchDir feeds hwrite
  unfold saveFromPage
  rw [Run.bind_ok _ _ () hnew, Run.bind_ok _ _ feeds hfeeds]
  refine ⟨resp, hout, hsaved, hfiles, ?_⟩
  simp only [detailCalls_append, hnewCalls, GetFeedsList_detailCalls, hcalls, List.nil_append]

/-- C10: when the output directory can be prepared, the home page lists `feeds` and every
file write succeeds, `SaveRecommendedFeedsContent` returns no error; `Saved`, which is
also the number of files, is the number of feeds among the first `L` whose detail fetch
succeeded, `L` being the limit when it is positive and 10 otherwise; and `GetFeedDetail`
is called for exactly the first `L` feeds, in order. -/
theorem SaveRecommendedFeedsContent_skips_failed_details (env : SaveEnv) (limit : Int)
    (outputDir : GoString) (feeds : List Feed)
    (hdir : succeeded (resolveOutputDir env outputDir) = true)
    (hmkdir : ∀ p, env.mkdirAll p = none)
    (hnav : env.page.navigateOk = true) (hstable : env.page.stableOk = true)
    (hfeeds : (GetFeedsList env.json env.page).out = .ok feeds)
    (hwrite : ∀ p, env.writeOk p = true) :
    ∃ resp, (SaveRecommendedFeedsContent env limit outputDir).out = .ok resp
      ∧ resp.Saved
          = ((feeds.take (if limit ≤ 0 then 10 else limit.toNat)).enumFrom 0).countP
              (fun p => succeeded (env.getFeedDetail p.1 p.2))
      ∧ resp.Files.length = resp.Saved
      ∧ detailCalls (SaveRecommendedFeedsContent env limit outputDir).trace
          = (feeds.take (if limit ≤ 0 then 10 else limit.toNat)).map
              (fun f => (f.ID, f.XsecToken)) := by
  have hL : (if limit ≤ 0 then 10 else limit.toNat)
      = (if limit ≤ 0 then (10 : Int) else limit).toNat := by
    split <;> rfl
  have hpos : 0 < (if limit ≤ 0 then (10 : Int) else limit) := by
    split <;> omega
  rw [hL]
  unfold SaveRecommendedFeedsContent
  cases hres : resolveOutputDir env outputDir with
  | error e =>
    rw [hres] at hdir
    exact absurd hdir (by simp [succeeded])
  | ok dir =>
    simp only [hmkdir]
    obtain ⟨resp, hout, hsaved, hfiles, hcalls⟩ :=
      saveFromPage_ok env (if limit ≤ 0 then (10 : Int) else limit) hpos
        (env.fp.Join dir env.now) feeds hnav hstable hfeeds hwrite
    refine ⟨resp, ?_, hsaved, hfiles, ?_⟩
    · simp [Run.bind, Run.defer, acts, hout]
    · simp [Run.bind, Run.defer, acts, detailCalls_append, hcalls]
      simp [detailCalls, detailCall]
      rw [← List.map_take]
      exact hcalls

/-- C10 on five feeds with the detail fetch of the third one failing: four documents are
saved and no error is returned; with limit 2 only the first two feeds are fetched. -/
theorem SaveRecommendedFeedsContent_skips_failed_details_witness :
    (∃ resp, (SaveRecommendedFeedsContent (exampleSaveEnv fiveFeeds) 0 []).out = .ok resp
      ∧ resp.Saved
          = ((fiveFeedsListed.take (if (0 : Int) ≤ 0 then 10 else (0 : Int).toNat)).enumFrom
              0).countP
              (fun p => succeeded ((exampleSaveEnv fiveFeeds).getFeedDetail p.1 p.2))
      ∧ resp.Files.length = resp.Saved
      ∧ detailCalls (SaveRecommendedFeedsContent (exampleSaveEnv fiveFeeds) 0 []).trace
          = (fiveFeedsListed.take (if (0 : Int) ≤ 0 then 10 else (0 : Int).toNat)).map
              (fun f => (f.ID, f.XsecToken)))
    ∧ (SaveRecommendedFeedsContent (exampleSaveEnv fiveFeeds) 0 []).out
        = .ok ⟨4, [goStr "/work/content/20240101_120000/1_A.md",
                   goStr "/work/content/20240101_120000/2_b.md",
                   goStr "/work/content/20240101_120000/3_d.md",
                   goStr "/work/content/20240101_120000/4_e.md"]⟩
    ∧ detailCalls (SaveRecommendedFeedsContent (exampleSaveEnv fiveFeeds) 2 []).trace
        = [(goStr "b", []), (goStr "A", [])] :=
  ⟨SaveRecommendedFeedsContent_skips_failed_details (exampleSaveEnv fiveFeeds) 0 []
      fiveFeedsListed (by decide) (fun _ => rfl) rfl rfl (by decide) (fun _ => rfl),
   by decide, by decide⟩

/-! ### Unique paths -/

theorem ensureUniqueLoop_some (notExist : GoString → Bool) (cand : Nat → GoString) :
    ∀ (remaining i k : Nat), i ≤ k → k < i + remaining → notExist (cand k) = true →
      (∀ j, i ≤ j → j < k → notExist (cand j) = false) →
      ensureUniqueLoop notExist cand remaining i = some (cand k) := by
  intro remaining
  induction remaining with
  | zero => intro i k hik hk _ _; omega
  | succ remaining ih =>
    intro i k hik hk hfree hbusy
    unfold ensureUniqueLoop
    by_cases hi : i = k
    · subst hi
      rw [if_pos hfree]
    · have hbi : notExist (cand i) = false := hbusy i (le_refl _) (by omega)
      rw [hbi]
      simp only [Bool.false_eq_true, if_false]
      exact ih (i + 1) k (by omega) (by omega) hfree
        (fun j hj1 hj2 => hbusy j (by omega) hj2)

theorem ensureUniqueLoop_none (notExist : GoString → Bool) (cand : Nat → GoString) :
    ∀ (remaining i : Nat), (∀ j, i ≤ j → j < i + remaining → notExist (cand j) = false) →
      ensureUniqueLoop notExist cand remaining i = none := by
  intro remaining
  induction remaining with
  | zero => intro i _; rfl
  | succ remaining ih =>
    intro i hbusy
    unfold ensureUniqueLoop
    rw [hbusy i (le_refl _) (by omega)]
    simp only [Bool.false_eq_true, if_false]
    exact ih (i + 1) (fun j hj1 hj2 => hbusy j (by omega) (by omega))

theorem ensureUniqueLoop_free (notExist : GoString → Bool) (cand : Nat → GoString) :
    ∀ (remaining i : Nat) (c : GoString),
      ensureUniqueLoop notExist cand remaining i = some c → notExist c = true := by
  intro remaining
  induction remaining with
  | zero => intro i c h; simp [ensureUniqueLoop] at h
  | succ remaining ih =>
    intro i c h
    unfold ensureUniqueLoop at h
    by_cases hi : notExist (cand i) = true
    · rw [if_pos hi] at h
      cases h
      exact hi
    · rw [if_neg hi] at h
      exact ih (i + 1) c h

/-- C12: with the file system given by an existence predicate, `ensureUniquePath`
returns the path itself when no file exists at it; otherwise it returns the numbered
candidate for the smallest `i` in 1..999 whose candidate does not exist, and the path
itself when all 999 candidates exist; so the returned path names an existing file only
if the path and all 999 candidates exist. -/
theorem ensureUniquePath_spec (fp : PathOps) (fileExists : GoString → Bool)
    (path : GoString) :
    (fileExists path = false →
        ensureUniquePath fp (fun p => !fileExists p) path = path)
    ∧ (fileExists path = true → ∀ i, 1 ≤ i → i ≤ 999 →
        fileExists (numberedPath fp path i) = false →
        (∀ j, 1 ≤ j → j < i → fileExists (numberedPath fp path j) = true) →
        ensureUniquePath fp (fun p => !fileExists p) path = numberedPath fp path i)
    ∧ (fileExists path = true →
        (∀ j, 1 ≤ j → j ≤ 999 → fileExists (numberedPath fp path j) = true) →
        ensureUniquePath fp (fun p => !fileExists p) path = path)
    ∧ (fileExists (ensureUniquePath fp (fun p => !fileExists p) path) = true →
        fileExists path = true
        ∧ ∀ j, 1 ≤ j → j ≤ 999 → fileExists (numberedPath fp path j) = true) := by
  have hnone : fileExists path = true →
      (∀ j, 1 ≤ j → j ≤ 999 → fileExists (numberedPath fp path j) = true) →
      ensureUniquePath fp (fun p => !fileExists p) path = path := by
    intro hpath hall
    unfold ensureUniquePath
    simp only [hpath, Bool.not_true, Bool.false_eq_true, if_false]
    have hloop := ensureUniqueLoop_none (fun p => !fileExists p) (numberedPath fp path) 999 1
      (fun j hj1 hj2 => by
        have := hall j hj1 (by omega)
        simp [this])
    unfold numberedPath at hloop
    rw [hloop]
  refine ⟨?_, ?_, hnone, ?_⟩
  · intro hpath
    unfold ensureUniquePath
    simp [hpath]
  · intro hpath i hi1 hi2 hfree hbusy
    unfold ensureUniquePath
    simp only [hpath, Bool.not_true, Bool.false_eq_true, if_false]
    have hloop := ensureUniqueLoop_some (fun p => !fileExists p) (numberedPath fp path) 999 1 i
      hi1 (by omega) (by simp [hfree])
      (fun j hj1 hj2 => by
        have := hbusy j hj1 hj2
        simp [this])
    unfold numberedPath at hloop
    rw [hloop]
    rfl
  · intro hres
    by_cases hpath : fileExists path = true
    · refine ⟨hpath, ?_⟩
      by_contra hnot
      cases hloop : ensureUniqueLoop (fun p => !fileExists p) (numberedPath fp path) 999 1 with
      | none =>
        apply hnot
        intro j hj1 hj2
        by_contra hj
        have hjf : fileExists (numberedPath fp path j) = false := by simpa using hj
        have hex : ∃ k, 1 ≤ k ∧ k ≤ 999 ∧ fileExists (numberedPath fp path k) = false :=
          ⟨j, hj1, hj2, hjf⟩
        classical
        let k := Nat.find hex
        have hk := Nat.find_spec hex
        have hmin : ∀ m, 1 ≤ m → m < k → fileExists (numberedPath fp path m) = true := by
          intro m hm1 hmk
          by_contra hm
          have hmf : fileExists (numberedPath fp path m) = false := by simpa using hm
          exact Nat.find_min hex hmk ⟨hm1, by omega, hmf⟩
        have hsome := ensureUniqueLoop_some (fun p => !fileExists p) (numberedPath fp path)
          999 1 k hk.1 (by omega) (by simp [hk.2.2])
          (fun m hm1 hm2 => by
            have := hmin m hm1 hm2
            simp [this])
        rw [hloop] at hsome
        exact absurd hsome (by simp)
      | some c =>
        have hfree := ensureUniqueLoop_free _ _ _ _ c hloop
        have hc : ensureUniquePath fp (fun p => !fileExists p) path = c := by
          unfold ensureUniquePath
          simp only [hpath, Bool.not_true, Bool.false_eq_true, if_false]
          unfold numberedPath at hloop
          rw [hloop]
        rw [hc] at hres
        simp [hres] at hfree
    · have hpf : fileExists path = false := by simpa using hpath
      have hself : ensureUniquePath fp (fun p => !fileExists p) path = path := by
        unfold ensureUniquePath
        simp [hpf]
      rw [hself] at hres
      exact absurd hres hpath

/-- C12 on three file systems: nothing exists, the path and its first candidate exist,
everything exists. -/
theorem ensureUniquePath_spec_witness :
    ensureUniquePath slashPaths (fun p => !(fun _ => false) p) (goStr "/out/1_a.md")
        = goStr "/out/1_a.md"
    ∧ ensureUniquePath slashPaths (fun p => !twoFilesExist p) (goStr "/out/1_a.md")
        = numberedPath slashPaths (goStr "/out/1_a.md") 2
    ∧ numberedPath slashPaths (goStr "/out/1_a.md") 2 = goStr "/out/1_a-(2).md"
    ∧ ensureUniquePath slashPaths (fun p => !(fun _ => true) p) (goStr "/out/1_a.md")
        = goStr "/out/1_a.md"
    ∧ ((fun _ => true) (goStr "/out/1_a.md") = true
        ∧ ∀ j, 1 ≤ j → j ≤ 999 →
            (fun _ => true) (numberedPath slashPaths (goStr "/out/1_a.md") j) = true) :=
  ⟨(ensureUniquePath_spec slashPaths (fun _ => false) (goStr "/out/1_a.md")).1 rfl,
   (ensureUniquePath_spec slashPaths twoFilesExist (goStr "/out/1_a.md")).2.1
      (by decide) 2 (by decide) (by decide) (by decide)
      (fun j hj1 hj2 => by
        have hj : j = 1 := by omega
        subst hj
        decide),
   by decide,
   (ensureUniquePath_spec slashPaths (fun _ => true) (goStr "/out/1_a.md")).2.2.1 rfl
      (fun _ _ _ => rfl),
   (ensureUniquePath_spec slashPaths (fun _ => true) (goStr "/out/1_a.md")).2.2.2 rfl⟩

/-! ### The textbox ancestor -/

theorem findTextboxLoop_eq_find (dom : Dom) :
    ∀ (rounds elem : Nat),
      findTextboxLoop dom rounds elem
        = (ancestors dom rounds elem).find? (hasTextboxRole dom) := by
  intro rounds
  induction rounds with
  | zero => intro elem; rfl
  | succ rounds ih =>
    intro elem
    unfold findTextboxLoop ancestors
    cases hp : dom.parent elem with
    | none => rfl
    | some parent =>
      simp only [List.find?_cons]
      cases hr : dom.role parent with
      | failed => simp [hasTextboxRole, hr, ih]
      | missing => simp [hasTextboxRole, hr, ih]
      | value role =>
        by_cases hrole : role = goStr "textbox"
        · simp [hasTextboxRole, hr, hrole]
        · simp [hasTextboxRole, hr, hrole, ih]

theorem ancestors_length (dom : Dom) :
    ∀ (n elem : Nat), (ancestors dom n elem).length ≤ n := by
  intro n
  induction n with
  | zero => intro elem; simp [ancestors]
  | succ n ih =>
    intro elem
    unfold ancestors
    cases dom.parent elem with
    | none => simp
    | some p =>
      have := ih p
      simp only [List.length_cons]
      omega

/-- C13: `findTextboxParent` returns the first of the first five ancestors (parent,
grandparent, ...) whose role attribute is present and equals `textbox`: it is found at a
level below which no ancestor has that role; the result is nil when none of the first
five ancestors has the role, which covers a chain that ends earlier and a textbox that
is six or more levels up. -/
theorem findTextboxParent_nearest (dom : Dom) (elem : Nat) :
    findTextboxParent dom elem = (ancestors dom 5 elem).find? (hasTextboxRole dom)
    ∧ ((∀ a ∈ ancestors dom 5 elem, hasTextboxRole dom a = false) →
        findTextboxParent dom elem = none)
    ∧ (∀ p, findTextboxParent dom elem = some p →
        ∃ k, k < 5 ∧ (ancestors dom 5 elem)[k]? = some p ∧ hasTextboxRole dom p = true
          ∧ ∀ j a, j < k → (ancestors dom 5 elem)[j]? = some a →
              hasTextboxRole dom a = false) := by
  have heq : findTextboxParent dom elem
      = (ancestors dom 5 elem).find? (hasTextboxRole dom) :=
    findTextboxLoop_eq_find dom 5 elem
  refine ⟨heq, ?_, ?_⟩
  · intro hnone
    rw [heq, List.find?_eq_none]
    intro a ha
    simp [hnone a ha]
  · intro p hp
    rw [heq, List.find?_eq_some] at hp
    obtain ⟨hrole, front, back, hsplit, hfront⟩ := hp
    have hlen := ancestors_length dom 5 elem
    rw [hsplit] at hlen ⊢
    simp only [List.length_append, List.length_cons] at hlen
    have hat : (front ++ p :: back)[front.length]? = some p := by
      rw [List.getElem?_append_right (le_refl _), Nat.sub_self]
      simp
    refine ⟨front.length, by omega, hat, hrole, ?_⟩
    intro j a hj hja
    rw [List.getElem?_append_left hj] at hja
    have hmem : a ∈ front := List.getElem?_mem hja
    simpa using hfront a hmem

/-- C13 on three chains: the only textbox six levels up gives nil, a chain of two
ancestors without a textbox gives nil, textboxes at levels five and six give the fifth
ancestor. -/
theorem findTextboxParent_nearest_witness :
    findTextboxParent textboxAtSix 0 = none
    ∧ (ancestors textboxAtSix 6 0).find? (hasTextboxRole textboxAtSix) = some 6
    ∧ findTextboxParent shortChain 0 = none
    ∧ findTextboxParent textboxAtFive 0 = some 5
    ∧ (∃ k, k < 5 ∧ (ancestors textboxAtFive 5 0)[k]? = some 5
        ∧ hasTextboxRole textboxAtFive 5 = true
        ∧ ∀ j a, j < k → (ancestors textboxAtFive 5 0)[j]? = some a →
            hasTextboxRole textboxAtFive a = false) :=
  ⟨(findTextboxParent_nearest textboxAtSix 0).2.1 (by decide),
   by decide,
   (findTextboxParent_nearest shortChain 0).2.1 (by decide),
   by decide,
   (findTextboxParent_nearest textboxAtFive 0).2.2 5 (by decide)⟩

/-! ### Runes -/

theorem decodeRune_width (b : Fin 256) (rest : GoString) :
    1 ≤ (decodeRune (b :: rest)).2 ∧ (decodeRune (b :: rest)).2 ≤ 4
    ∧ (decodeRune (b :: rest)).2 ≤ (b :: rest).length := by
  generalize hd : decodeRune (b :: rest) = d
  simp only [decodeRune] at hd
  repeat' split at hd
  all_goals (subst hd; simp)
theorem inRange_ascii (c : Fin 256) (hc : c.val < 0x80) (lo hi : Nat) (hlo : 0x80 ≤ lo) :
    inRange c.val lo hi = false := by
  unfold inRange
  have : ¬ lo ≤ c.val := by omega
  simp [this]

theorem decodeRune_append_ascii (b : Fin 256) (rest : GoString) (c : Fin 256)
    (hc : c.val < 0x80) :
    decodeRune (b :: rest ++ [c]) = decodeRune (b :: rest) := by
  have h1 := inRange_ascii c hc 0x80 0xBF (by omega)
  rcases rest with _ | ⟨b1, _ | ⟨b2, _ | ⟨b3, tail⟩⟩⟩ <;>
    simp only [decodeRune, List.cons_append, List.nil_append, h1, Bool.and_false,
      Bool.false_eq_true, if_false, ite_self]

theorem runesAux_cons (fuel : Nat) (b : Fin 256) (rest : GoString) :
    runesAux (fuel + 1) (b :: rest)
      = (decodeRune (b :: rest)).1
        :: runesAux fuel ((b :: rest).drop (decodeRune (b :: rest)).2) := by
  rw [runesAux]

theorem decodeRune_ascii (b : Fin 256) (rest : GoString) (hb : b.val < 0x80) :
    decodeRune (b :: rest) = (b.val, 1) := by
  simp only [decodeRune, hb, if_true]

theorem runes_cons_ascii (b : Fin 256) (s : GoString) (hb : b.val < 0x80) :
    runes (b :: s) = b.val :: runes s := by
  unfold runes
  rw [List.length_cons, runesAux_cons, decodeRune_ascii b s hb]
  rfl

theorem runesAux_append_ascii (c : Fin 256) (hc : c.val < 0x80) :
    ∀ (fuel : Nat) (s : GoString), s.length ≤ fuel →
      runesAux (fuel + 1) (s ++ [c]) = runesAux fuel s ++ [c.val] := by
  intro fuel
  induction fuel with
  | zero =>
    intro s hs
    have hnil : s = [] := List.length_eq_zero.mp (by omega)
    subst hnil
    show runesAux 1 [c] = _
    rw [runesAux_cons, decodeRune_ascii c [] hc]
    rfl
  | succ fuel ih =>
    intro s hs
    cases s with
    | nil =>
      show runesAux (fuel + 2) [c] = _
      rw [runesAux_cons, decodeRune_ascii c [] hc]
      rfl
    | cons b rest =>
      obtain ⟨hw1, _, hwlen⟩ := decodeRune_width b rest
      rw [List.cons_append, runesAux_cons, ← List.cons_append,
        decodeRune_append_ascii b rest c hc, runesAux_cons]
      have hdrop : List.drop (decodeRune (b :: rest)).2 ((b :: rest) ++ [c])
          = List.drop (decodeRune (b :: rest)).2 (b :: rest) ++ [c] :=
        List.drop_append_of_le_length hwlen
      rw [hdrop, ih _ (by
        rw [List.length_drop]
        simp only [List.length_cons] at hs ⊢
        omega)]
      rfl

theorem runes_append_ascii (s : GoString) (c : Fin 256) (hc : c.val < 0x80) :
    runes (s ++ [c]) = runes s ++ [c.val] := by
  unfold runes
  rw [List.length_append, List.length_singleton]
  exact runesAux_append_ascii c hc s.length s (le_refl _)

theorem runesAux_length_bound :
    ∀ (fuel : Nat) (s : GoString), s.length ≤ fuel →
      s.length ≤ 4 * (runesAux fuel s).length := by
  intro fuel
  induction fuel with
  | zero => intro s hs; omega
  | succ fuel ih =>
    intro s hs
    cases s with
    | nil => simp
    | cons b rest =>
      obtain ⟨hw1, hw4, hwlen⟩ := decodeRune_width b rest
      rw [runesAux_cons, List.length_cons]
      have hlen : ((b :: rest).drop (decodeRune (b :: rest)).2).length
          = (b :: rest).length - (decodeRune (b :: rest)).2 := List.length_drop _ _
      have := ih ((b :: rest).drop (decodeRune (b :: rest)).2) (by
        rw [hlen]
        simp only [List.length_cons] at hs ⊢
        omega)
      rw [hlen] at this
      simp only [List.length_cons] at this hwlen ⊢
      omega

theorem runes_length_bound (s : GoString) : s.length ≤ 4 * (runes s).length :=
  runesAux_length_bound s.length s (le_refl _)

/-! ### Upper-casing -/

theorem utf8EncodeRune_length_pos (r : Nat) : 1 ≤ (utf8EncodeRune r).length := by
  unfold utf8EncodeRune
  split_ifs <;> simp

theorem flatMap_length_ge {α β : Type} (f : α → List β) (hf : ∀ a, 1 ≤ (f a).length)
    (l : List α) : l.length ≤ (l.flatMap f).length := by
  induction l with
  | nil => simp
  | cons a l ih =>
    rw [List.flatMap_cons, List.length_append, List.length_cons]
    have := hf a
    omega

theorem Map_length (mapping : Nat → Nat) (s : GoString) :
    (runes s).length ≤ (Map mapping s).length :=
  flatMap_length_ge _ (fun r => utf8EncodeRune_length_pos _) _

theorem ToUpper_length (u : UnicodeTables) (s : GoString) :
    s.length ≤ 4 * (ToUpper u s).length := by
  unfold ToUpper
  split
  · rw [List.length_map]
    omega
  · have h1 := runes_length_bound s
    have h2 := Map_length (unicodeToUpper u) s
    omega

theorem reservedNames_short : ∀ x ∈ reservedNames, x.length ≤ 4 ∧ x.getLast? ≠ some 95 := by
  decide

theorem ToUpper_append_underscore (u : UnicodeTables) (s : GoString) :
    ∃ t, ToUpper u (s ++ [95]) = t ++ [95] := by
  unfold ToUpper
  split
  · exact ⟨_, by rw [List.map_append]; rfl⟩
  · refine ⟨(runes s).flatMap (fun r => utf8EncodeRune (unicodeToUpper u r)), ?_⟩
    unfold Map
    rw [runes_append_ascii s 95 (by decide), List.flatMap_append]
    rfl

theorem ToUpper_underscore_not_reserved (u : UnicodeTables) (s : GoString) :
    ToUpper u (s ++ [95]) ∉ reservedNames := by
  obtain ⟨t, ht⟩ := ToUpper_append_underscore u s
  intro hmem
  have := (reservedNames_short _ hmem).2
  rw [ht] at this
  simp at this

theorem ToUpper_long_not_reserved (u : UnicodeTables) (s : GoString) (hlen : 17 ≤ s.length) :
    ToUpper u s ∉ reservedNames := by
  intro hmem
  have h1 := (reservedNames_short _ hmem).1
  have h2 := ToUpper_length u s
  omega

/-! ### File name safety -/

theorem ReplaceAll_single (s : GoString) (old x : Fin 256) :
    ReplaceAll s old [x] = s.map (fun c => if c = old then x else c) := by
  unfold ReplaceAll
  induction s with
  | nil => rfl
  | cons c s ih =>
    rw [List.flatMap_cons, ih, List.map_cons]
    by_cases h : c = old <;> simp [h]

set_option maxRecDepth 100000 in
theorem sanitizeByte_eq : ∀ c : Fin 256,
    (illegalBytes.foldl (fun (f : Fin 256 → Fin 256) ch => fun c => if f c = ch then 95 else f c)
      id) c = sanitizeByte c := by
  decide

theorem foldl_replace_map (l : List (Fin 256)) :
    ∀ (f : Fin 256 → Fin 256) (s : GoString),
      l.foldl (fun name ch => ReplaceAll name ch (goStr "_")) (s.map f)
        = s.map (l.foldl (fun (f : Fin 256 → Fin 256) ch => fun c => if f c = ch then 95 else f c)
            f) := by
  induction l with
  | nil => intro f s; rfl
  | cons ch l ih =>
    intro f s
    rw [List.foldl_cons, List.foldl_cons]
    have hstep : ReplaceAll (s.map f) ch (goStr "_")
        = s.map (fun c => if f c = ch then 95 else f c) := by
      have hu : goStr "_" = [95] := by decide
      rw [hu, ReplaceAll_single, List.map_map]
      rfl
    rw [hstep]
    exact ih _ s

theorem replace_illegal (s : GoString) :
    illegalBytes.foldl (fun name ch => ReplaceAll name ch (goStr "_")) s
      = s.map sanitizeByte := by
  have h := foldl_replace_map illegalBytes id s
  rw [List.map_id] at h
  rw [h]
  exact List.map_congr_left (fun c _ => sanitizeByte_eq c)

set_option maxRecDepth 100000 in
theorem sanitizeByte_legal : ∀ c : Fin 256, sanitizeByte c ∉ illegalBytes := by
  decide

theorem underscore_legal : (95 : Fin 256) ∉ illegalBytes := by decide

set_option maxRecDepth 100000 in
theorem IsSpace_ascii : ∀ c : Fin 256, c.val < 0x80 → IsSpace c.val = asciiSpace c := by
  decide

set_option maxRecDepth 100000 in
theorem asciiSpace_lt : ∀ c : Fin 256, asciiSpace c = true → c.val < 0x80 := by
  decide

theorem dropWhile_head_false {α : Type} (p : α → Bool) :
    ∀ (s : List α) (c : α) (t : List α), s.dropWhile p = c :: t → p c = false := by
  intro s
  induction s with
  | nil => intro c t h; simp at h
  | cons b rest ih =>
    intro c t h
    rw [List.dropWhile_cons] at h
    by_cases hb : p b = true
    · rw [if_pos hb] at h
      exact ih c t h
    · rw [if_neg hb] at h
      cases h
      simpa using hb

theorem runes_dropWhile_space (s : GoString)
    (h : ∀ r ∈ runes s, IsSpace r = true) :
    ∀ r ∈ runes (s.dropWhile asciiSpace), IsSpace r = true := by
  induction s with
  | nil => exact h
  | cons b rest ih =>
    rw [List.dropWhile_cons]
    by_cases hb : asciiSpace b = true
    · rw [if_pos hb]
      apply ih
      intro r hr
      apply h
      rw [runes_cons_ascii b rest (asciiSpace_lt b hb)]
      exact List.mem_cons_of_mem _ hr
    · rw [if_neg hb]
      exact h

theorem trimLeftFuncAux_cons (f : Nat → Bool) (fuel : Nat) (b : Fin 256) (rest : GoString) :
    trimLeftFuncAux f (fuel + 1) (b :: rest)
      = if f (decodeRune (b :: rest)).1 then
          trimLeftFuncAux f fuel ((b :: rest).drop (decodeRune (b :: rest)).2)
        else b :: rest := by
  rw [trimLeftFuncAux]

theorem trimLeftFuncAux_all_space :
    ∀ (fuel : Nat) (s : GoString), s.length ≤ fuel →
      (∀ r ∈ runesAux fuel s, IsSpace r = true) →
      trimLeftFuncAux IsSpace fuel s = [] := by
  intro fuel
  induction fuel with
  | zero =>
    intro s hs _
    have hnil : s = [] := List.length_eq_zero.mp (by omega)
    subst hnil
    rfl
  | succ fuel ih =>
    intro s hs hall
    cases s with
    | nil => rfl
    | cons b rest =>
      obtain ⟨hw1, _, hwlen⟩ := decodeRune_width b rest
      rw [runesAux_cons] at hall
      rw [trimLeftFuncAux_cons, if_pos (hall _ (List.mem_cons_self _ _))]
      apply ih
      · rw [List.length_drop]
        simp only [List.length_cons] at hs ⊢
        omega
      · intro r hr
        exact hall r (List.mem_cons_of_mem _ hr)

theorem TrimSpace_all_space (s : GoString) (h : ∀ r ∈ runes s, IsSpace r = true) :
    TrimSpace s = [] := by
  have hrest := runes_dropWhile_space s h
  unfold TrimSpace
  generalize hfs : s.dropWhile asciiSpace = fromStart at hrest
  cases fromStart with
  | nil => rfl
  | cons c t =>
    have hc : asciiSpace c = false := dropWhile_head_false asciiSpace s c t hfs
    by_cases hhigh : c.val ≥ 0x80
    · simp only [hhigh, if_true]
      have hleft : TrimLeftFunc (c :: t) IsSpace = [] :=
        trimLeftFuncAux_all_space _ _ (le_refl _) hrest
      unfold TrimFunc
      rw [hleft]
      rfl
    · have hlow : c.val < 0x80 := by omega
      have hmem : c.val ∈ runes (c :: t) := by
        rw [runes_cons_ascii c t hlow]
        exact List.mem_cons_self _ _
      have hsp := hrest _ hmem
      rw [IsSpace_ascii c hlow, hc] at hsp
      exact absurd hsp (by simp)

theorem sanitizeFilename_eq (u : UnicodeTables) (name : GoString) :
    sanitizeFilename u name
      = if TrimSpace name = [] then goStr "untitled"
        else if reservedNames.contains (ToUpper u ((TrimSpace name).map sanitizeByte)) then
          (if ((TrimSpace name).map sanitizeByte ++ [95]).length > 80 then
            ((TrimSpace name).map sanitizeByte ++ [95]).take 80
           else (TrimSpace name).map sanitizeByte ++ [95])
        else
          (if ((TrimSpace name).map sanitizeByte).length > 80 then
            ((TrimSpace name).map sanitizeByte).take 80
           else (TrimSpace name).map sanitizeByte) := by
  have hu : goStr "_" = [95] := by decide
  unfold sanitizeFilename
  simp only [replace_illegal]
  rw [hu]
  by_cases ht : TrimSpace name = []
  · rw [if_pos ht, if_pos ht]
  · rw [if_neg ht, if_neg ht]
    by_cases hres : reservedNames.contains (ToUpper u ((TrimSpace name).map sanitizeByte)) = true
    · simp only [hres, if_true]
    · simp only [hres, Bool.false_eq_true, if_false]

theorem untitled_safe (u : UnicodeTables) :
    goStr "untitled" ≠ []
    ∧ (goStr "untitled").length ≤ 80
    ∧ (∀ c ∈ illegalBytes, c ∉ goStr "untitled")
    ∧ ToUpper u (goStr "untitled") ∉ reservedNames := by
  have hup : ToUpper u (goStr "untitled") = goStr "UNTITLED" := by
    unfold ToUpper
    rw [if_pos (by decide)]
    decide
  rw [hup]
  refine ⟨by decide, by decide, ?_, ?_⟩
  · set_option maxRecDepth 100000 in decide
  · set_option maxRecDepth 100000 in decide

/-- C11: `sanitizeFilename` returns a non-empty string of at most 80 bytes that contains
none of the bytes `<`, `>`, `:`, `"`, `\`, `/`, `|`, `?`, `*` and whose upper-cased form
is not a reserved device name; a name whose runes are all white space, the empty name
included, gives `untitled`. -/
theorem sanitizeFilename_safe (u : UnicodeTables) (name : GoString) :
    sanitizeFilename u name ≠ []
    ∧ (sanitizeFilename u name).length ≤ 80
    ∧ (∀ c ∈ illegalBytes, c ∉ sanitizeFilename u name)
    ∧ ToUpper u (sanitizeFilename u name) ∉ reservedNames
    ∧ ((∀ r ∈ runes name, IsSpace r = true) → sanitizeFilename u name = goStr "untitled") := by
  rw [sanitizeFilename_eq]
  by_cases ht : TrimSpace name = []
  · rw [if_pos ht]
    obtain ⟨h1, h2, h3, h4⟩ := untitled_safe u
    exact ⟨h1, h2, h3, h4, fun _ => rfl⟩
  · rw [if_neg ht]
    have hspace : (∀ r ∈ runes name, IsSpace r = true) → False :=
      fun h => ht (TrimSpace_all_space name h)
    have hne : (TrimSpace name).map sanitizeByte ≠ [] := by
      intro h
      exact ht (List.map_eq_nil_iff.mp h)
    have hpos : 0 < ((TrimSpace name).map sanitizeByte).length := List.length_pos.mpr hne
    have hlegal : ∀ c ∈ illegalBytes, c ∉ (TrimSpace name).map sanitizeByte := by
      intro c hc hmem
      rw [List.mem_map] at hmem
      obtain ⟨x, _, hx⟩ := hmem
      rw [← hx] at hc
      exact sanitizeByte_legal x hc
    generalize (TrimSpace name).map sanitizeByte = r at hne hpos hlegal
    by_cases hres : reservedNames.contains (ToUpper u r) = true
    · rw [if_pos hres]
      have hmem : ToUpper u r ∈ reservedNames := by simpa using hres
      have hshort := (reservedNames_short _ hmem).1
      have hlen := ToUpper_length u r
      have hfit : ¬ (r ++ [95]).length > 80 := by
        rw [List.length_append, List.length_singleton]
        omega
      rw [if_neg hfit]
      refine ⟨by simp, by simpa using hfit, ?_, ToUpper_underscore_not_reserved u r,
        fun h => (hspace h).elim⟩
      intro c hc hmem2
      rw [List.mem_append, List.mem_singleton] at hmem2
      rcases hmem2 with h | h
      · exact hlegal c hc h
      · subst h
        exact underscore_legal hc
    · rw [if_neg hres]
      have hnot : ToUpper u r ∉ reservedNames := by simpa using hres
      by_cases hlong : r.length > 80
      · rw [if_pos hlong]
        have hlen : (r.take 80).length = 80 := by
          rw [List.length_take]
          omega
        refine ⟨?_, by omega, ?_, ToUpper_long_not_reserved u _ (by omega),
          fun h => (hspace h).elim⟩
        · intro h
          rw [h] at hlen
          simp at hlen
        · intro c hc hmem
          exact hlegal c hc (List.mem_of_mem_take hmem)
      · rw [if_neg hlong]
        exact ⟨hne, by omega, hlegal, hnot, fun h => (hspace h).elim⟩

/-- C11 on a reserved name, a name with illegal characters, a long name and names of
white space only. -/
theorem sanitizeFilename_safe_witness :
    sanitizeFilename caselessTables (goStr " \t　 ") = goStr "untitled"
    ∧ sanitizeFilename caselessTables [] = goStr "untitled"
    ∧ sanitizeFilename caselessTables (goStr " con ") = goStr "con_"
    ∧ sanitizeFilename caselessTables (goStr "a<b>c:d\"e\\f/g|h?i*j") = goStr "a_b_c_d_e_f_g_h_i_j"
    ∧ (sanitizeFilename caselessTables (List.replicate 100 97)).length = 80 :=
  ⟨(sanitizeFilename_safe caselessTables (goStr " \t　 ")).2.2.2.2 (by decide),
   (sanitizeFilename_safe caselessTables []).2.2.2.2 (by decide),
   by decide, by decide, by decide⟩

/-- C14 fails on the code: for the title of 27 ideographs `中` (81 bytes, valid UTF-8)
`sanitizeFilename` returns, whatever the case tables are, the first 26 ideographs
followed by the bytes `E4 B8`, the first two of the three bytes of the 27th; the result is
not valid UTF-8. -/
theorem sanitizeFilename_cuts_character (u : UnicodeTables) :
    ValidString longCjkTitle = true
    ∧ longCjkTitle.length = 81
    ∧ sanitizeFilename u longCjkTitle
        = (List.replicate 26 (goStr "中")).flatten ++ [0xE4, 0xB8]
    ∧ ValidString (sanitizeFilename u longCjkTitle) = false := by
  have hvalue : sanitizeFilename u longCjkTitle
      = (List.replicate 26 (goStr "中")).flatten ++ [0xE4, 0xB8] := by
    have ht : TrimSpace longCjkTitle = longCjkTitle := by decide
    have hm : longCjkTitle.map sanitizeByte = longCjkTitle := by decide
    have hres : reservedNames.contains (ToUpper u longCjkTitle) = false := by
      have := ToUpper_long_not_reserved u longCjkTitle (by decide)
      simpa using this
    rw [sanitizeFilename_eq, ht, hm, if_neg (by decide), hres]
    decide
  refine ⟨by decide, by decide, hvalue, ?_⟩
  rw [hvalue]
  decide

end Xhs
